import Mathlib

/-!
Tidwell-8: the CHIP-8 interpreter core (`src/src/core/chip8.cpp`)

A shallow embedding of `class Chip8` and theorems about it.

Conventions of the embedding

* `unsigned char` and `unsigned short` values are natural numbers; every C++
  expression that can leave its type's range carries an explicit `% 256` or
  `% 65536`.  The field types are those of the accessors at the end of
  `chip8.cpp` (`get_register`, `get_address`, `get_program_counter`,
  `get_stack_pointer`).
* The register file and the call stack are arrays in the source: here they are
  functions from an index to a value, updated with `write_at`.  The length the
  constructor allocated for the call stack is kept in `call_stack_size`, so that
  statements about its bounds can be made; the source does not store it.
* `Memory`, `Keyboard` and `Display` are classes of the repository whose source
  is not part of `src/`.  `Memory` and `Keyboard` are modelled from the
  specification, the `Display` and the glyph table are parameters (`Devices`).
* Calls on the listener (`gui->update_...`) and the diagnostics written to
  `std::cout` do not touch the state of the core and are left out.
* The two text helpers of the GTK view, `byte_to_string` and `short_to_string`
  (`src/src/view/glade_gui.cpp`), are embedded as functions to `String`.
-/

namespace Tidwell8

/-- Array store `a[i] = v` on an array seen as a function of its index. -/
def write_at (a : Nat → Nat) (i v : Nat) : Nat → Nat :=
  fun j => if j = i then v else a j

/-- Modelled from the spec: the `Memory` class (`core/memory.h`), a flat
addressable byte store with a read-byte and a write-byte operation. -/
structure Memory where
  cells : Nat → Nat

namespace Memory

/-- Modelled from the spec: `Memory::fetch`, read-byte; the result is a byte. -/
def fetch (m : Memory) (address : Nat) : Nat :=
  m.cells address % 256

/-- Modelled from the spec: `Memory::dump`, write-byte; the stored value is
the byte passed. -/
def dump (m : Memory) (address value : Nat) : Memory :=
  { cells := fun a => if a = address then value % 256 else m.cells a }

end Memory

/-- Modelled from the spec: the `Keyboard` class (`core/keyboard.h`), one
boolean state per key, with query, press and release by key index. -/
structure Keyboard where
  keys : Nat → Bool

namespace Keyboard

/-- Modelled from the spec: `Keyboard::is_key_pressed`. -/
def is_key_pressed (k : Keyboard) (key : Nat) : Bool :=
  k.keys key

/-- Modelled from the spec: `Keyboard::press_key`. -/
def press_key (k : Keyboard) (key : Nat) : Keyboard :=
  { keys := fun j => if j = key then true else k.keys j }

/-- Modelled from the spec: `Keyboard::release_key`. -/
def release_key (k : Keyboard) (key : Nat) : Keyboard :=
  { keys := fun j => if j = key then false else k.keys j }

end Keyboard

/-- The collaborators of the core whose behaviour the core only consumes: the
display surface (state type `D`, `Display::clear`, `Display::write_line`) and
the glyph table of the memory (`Memory::get_sprite_address`). -/
structure Devices (D : Type) where
  clear : D → D
  write_line : D → Nat → Nat → Nat → D × Bool
  get_sprite_address : Nat → Nat

/-- The value of the macro `CALL_STACK_SIZE`. -/
def CALL_STACK_SIZE : Nat := 16

/-- The state of a `Chip8` object: its collaborators, the call stack with the
length it was allocated with, the fields of the core, and the outputs that the
C library's `rand` has yet to return. -/
structure Chip8 (D : Type) where
  memory : Memory
  display : D
  keyboard : Keyboard
  call_stack : Nat → Nat
  call_stack_size : Nat
  registers : Nat → Nat
  address_register : Nat
  program_counter : Nat
  stack_pointer : Nat
  delay_timer : Nat
  sound_timer : Nat
  rand_outputs : Nat → Nat

/-- The 35 member functions that `create_operation_map` binds, one
constructor per handler. -/
inductive Operation where
  | _clear_screen
  | _return
  | _system_call
  | _jump
  | _call
  | _skip_equal_register_value
  | _skip_not_equal_register_value
  | _skip_equal_register_register
  | _assign_register_value
  | _add_register_value
  | _assign_register_register
  | _or
  | _and
  | _xor
  | _add_register_register
  | _subtract_register_register
  | _shift_right
  | _subtract_negative_register_register
  | _shift_left
  | _skip_not_equal_register_register
  | _set_address_register
  | _jump_offset
  | _random
  | _draw
  | _skip_key_pressed
  | _skip_key_not_pressed
  | _get_delay_timer
  | _get_key
  | _set_delay_timer
  | _set_sound_timer
  | _add_address_register
  | _set_address_sprite
  | _store_bcd
  | _dump_register
  | _load_register
  deriving DecidableEq, Repr

/-- The insertions of `Chip8::create_operation_map`, in source order. -/
def operation_entries : List (Nat × Operation) :=
  [ (0x00E0, ._clear_screen),
    (0x00EE, ._return),
    (0x0000, ._system_call),
    (0x1000, ._jump),
    (0x2000, ._call),
    (0x3000, ._skip_equal_register_value),
    (0x4000, ._skip_not_equal_register_value),
    (0x5000, ._skip_equal_register_register),
    (0x6000, ._assign_register_value),
    (0x7000, ._add_register_value),
    (0x8000, ._assign_register_register),
    (0x8001, ._or),
    (0x8002, ._and),
    (0x8003, ._xor),
    (0x8004, ._add_register_register),
    (0x8005, ._subtract_register_register),
    (0x8006, ._shift_right),
    (0x8007, ._subtract_negative_register_register),
    (0x800E, ._shift_left),
    (0x9000, ._skip_not_equal_register_register),
    (0xA000, ._set_address_register),
    (0xB000, ._jump_offset),
    (0xC000, ._random),
    (0xD000, ._draw),
    (0xE09E, ._skip_key_pressed),
    (0xE0A1, ._skip_key_not_pressed),
    (0xF007, ._get_delay_timer),
    (0xF00A, ._get_key),
    (0xF015, ._set_delay_timer),
    (0xF018, ._set_sound_timer),
    (0xF01E, ._add_address_register),
    (0xF029, ._set_address_sprite),
    (0xF033, ._store_bcd),
    (0xF055, ._dump_register),
    (0xF065, ._load_register) ]

/-- A `std::map::insert`: the pair is added unless the key is already bound. -/
def map_insert (m : List (Nat × Operation)) (e : Nat × Operation) : List (Nat × Operation) :=
  match m.lookup e.1 with
  | some _ => m
  | none => m ++ [e]

/-- The map built by `Chip8::create_operation_map`: cleared, then filled. -/
def create_operation_map : List (Nat × Operation) :=
  operation_entries.foldl map_insert []

/-- The lookup `operation_map.find(opnum)` of `Chip8::cycle`. -/
def operation_map (opnum : Nat) : Option Operation :=
  create_operation_map.lookup opnum

namespace Chip8

variable {D : Type}

/-- The three-argument constructor: the given collaborators, a call stack of
`CALL_STACK_SIZE` slots.  The fields the constructor leaves uninitialised are
arguments. -/
def create3 (memory : Memory) (display : D) (keyboard : Keyboard) (uninit : Chip8 D) : Chip8 D :=
  { uninit with memory := memory, display := display, keyboard := keyboard,
                call_stack_size := CALL_STACK_SIZE }

/-- The four-argument constructor, `call_stack = new unsigned short[call_stack_size]`
with `call_stack_size` an `unsigned char`. -/
def create4 (memory : Memory) (display : D) (keyboard : Keyboard) (call_stack_size : Nat)
    (uninit : Chip8 D) : Chip8 D :=
  { uninit with memory := memory, display := display, keyboard := keyboard,
                call_stack_size := call_stack_size % 256 }

/-- The function `Chip8::reset`. -/
def reset (s : Chip8 D) : Chip8 D :=
  { s with registers := fun i => if i < 0x10 then 0x00 else s.registers i,
           delay_timer := 0x00,
           sound_timer := 0x00,
           stack_pointer := 0x00,
           address_register := 0x00,
           program_counter := 0x200 }

/-- The function `Chip8::cycle_delay`. -/
def cycle_delay (s : Chip8 D) : Chip8 D :=
  if s.delay_timer > 0 then { s with delay_timer := s.delay_timer - 1 } else s

/-- The function `Chip8::cycle_sound`. -/
def cycle_sound (s : Chip8 D) : Chip8 D :=
  if s.sound_timer > 0 then { s with sound_timer := s.sound_timer - 1 } else s

/-- The handler `Chip8::_clear_screen`. -/
def _clear_screen (dev : Devices D) (s : Chip8 D) (_address _register_x _register_y _value : Nat) :
    Chip8 D :=
  { s with display := dev.clear s.display }

/-- The handler `Chip8::_return`. -/
def _return (s : Chip8 D) (_address _register_x _register_y _value : Nat) : Chip8 D :=
  if s.stack_pointer = 0 then s
  else
    let stack_pointer := (s.stack_pointer - 1) % 256
    { s with stack_pointer := stack_pointer,
             program_counter := s.call_stack stack_pointer }

/-- The handler `Chip8::_system_call`: the instruction is ignored. -/
def _system_call (s : Chip8 D) (_address _register_x _register_y _value : Nat) : Chip8 D :=
  s

/-- The handler `Chip8::_jump`. -/
def _jump (s : Chip8 D) (address _register_x _register_y _value : Nat) : Chip8 D :=
  { s with program_counter := address }

/-- The handler `Chip8::_call`. -/
def _call (s : Chip8 D) (address _register_x _register_y _value : Nat) : Chip8 D :=
  if s.stack_pointer = CALL_STACK_SIZE then s
  else
    { s with call_stack := write_at s.call_stack s.stack_pointer s.program_counter,
             stack_pointer := (s.stack_pointer + 1) % 256,
             program_counter := address }

/-- The handler `Chip8::_skip_equal_register_value`. -/
def _skip_equal_register_value (s : Chip8 D) (_address register_x _register_y value : Nat) :
    Chip8 D :=
  if s.registers register_x = value then
    { s with program_counter := (s.program_counter + 2) % 65536 }
  else s

/-- The handler `Chip8::_skip_not_equal_register_value`. -/
def _skip_not_equal_register_value (s : Chip8 D) (_address register_x _register_y value : Nat) :
    Chip8 D :=
  if s.registers register_x ≠ value then
    { s with program_counter := (s.program_counter + 2) % 65536 }
  else s

/-- The handler `Chip8::_skip_equal_register_register`. -/
def _skip_equal_register_register (s : Chip8 D) (_address register_x register_y _value : Nat) :
    Chip8 D :=
  if s.registers register_x = s.registers register_y then
    { s with program_counter := (s.program_counter + 2) % 65536 }
  else s

/-- The handler `Chip8::_skip_not_equal_register_register`. -/
def _skip_not_equal_register_register (s : Chip8 D) (_address register_x register_y _value : Nat) :
    Chip8 D :=
  if s.registers register_x ≠ s.registers register_y then
    { s with program_counter := (s.program_counter + 2) % 65536 }
  else s

/-- The handler `Chip8::_assign_register_value`. -/
def _assign_register_value (s : Chip8 D) (_address register_x _register_y value : Nat) :
    Chip8 D :=
  { s with registers := write_at s.registers register_x value }

/-- The handler `Chip8::_add_register_value`. -/
def _add_register_value (s : Chip8 D) (_address register_x _register_y value : Nat) : Chip8 D :=
  { s with registers := write_at s.registers register_x ((s.registers register_x + value) % 256) }

/-- The handler `Chip8::_assign_register_register`. -/
def _assign_register_register (s : Chip8 D) (_address register_x register_y _value : Nat) :
    Chip8 D :=
  { s with registers := write_at s.registers register_x (s.registers register_y) }

/-- The handler `Chip8::_or`. -/
def _or (s : Chip8 D) (_address register_x register_y _value : Nat) : Chip8 D :=
  { s with registers :=
      write_at s.registers register_x (s.registers register_x ||| s.registers register_y) }

/-- The handler `Chip8::_and`. -/
def _and (s : Chip8 D) (_address register_x register_y _value : Nat) : Chip8 D :=
  { s with registers :=
      write_at s.registers register_x (s.registers register_x &&& s.registers register_y) }

/-- The handler `Chip8::_xor`. -/
def _xor (s : Chip8 D) (_address register_x register_y _value : Nat) : Chip8 D :=
  { s with registers :=
      write_at s.registers register_x (s.registers register_x ^^^ s.registers register_y) }

/-- The handler `Chip8::_add_register_register`.  The flag is stored first,
the truncated total second, as in the source. -/
def _add_register_register (s : Chip8 D) (_address register_x register_y _value : Nat) :
    Chip8 D :=
  let total := (s.registers register_x + s.registers register_y) % 65536
  let registers := if total > 0xFF then write_at s.registers 0x0F 0x01
                   else write_at s.registers 0x0F 0x00
  { s with registers := write_at registers register_x ((total &&& 0x00FF) % 256) }

/-- The handler `Chip8::_subtract_register_register`.  `difference` is an
`unsigned short`; the subtrahend is read from the register file after the flag
has been stored, as in the source. -/
def _subtract_register_register (s : Chip8 D) (_address register_x register_y _value : Nat) :
    Chip8 D :=
  let difference := s.registers register_x
  let registers := if s.registers register_x ≥ s.registers register_y
                   then write_at s.registers 0x0F 0x01
                   else write_at s.registers 0x0F 0x00
  let difference := if s.registers register_x ≥ s.registers register_y then difference
                    else (difference + 0x0100) % 65536
  let difference := (difference + 65536 - registers register_y) % 65536
  { s with registers := write_at registers register_x (difference % 256) }

/-- The handler `Chip8::_subtract_negative_register_register`. -/
def _subtract_negative_register_register (s : Chip8 D)
    (_address register_x register_y _value : Nat) : Chip8 D :=
  let difference := s.registers register_y
  let registers := if s.registers register_y ≥ s.registers register_x
                   then write_at s.registers 0x0F 0x01
                   else write_at s.registers 0x0F 0x00
  let difference := if s.registers register_y ≥ s.registers register_x then difference
                    else (difference + 0x0100) % 65536
  let difference := (difference + 65536 - registers register_x) % 65536
  { s with registers := write_at registers register_x (difference % 256) }

/-- The handler `Chip8::_shift_right`. -/
def _shift_right (s : Chip8 D) (_address register_x _register_y _value : Nat) : Chip8 D :=
  let registers := if (s.registers register_x &&& 0x01) ≠ 0x00
                   then write_at s.registers 0x0F 0x01
                   else write_at s.registers 0x0F 0x00
  { s with registers :=
      write_at registers register_x (((registers register_x >>> 1) &&& 0x7F) % 256) }

/-- The handler `Chip8::_shift_left`. -/
def _shift_left (s : Chip8 D) (_address register_x _register_y _value : Nat) : Chip8 D :=
  let registers := if (s.registers register_x &&& 0x80) ≠ 0x00
                   then write_at s.registers 0x0F 0x01
                   else write_at s.registers 0x0F 0x00
  { s with registers :=
      write_at registers register_x (((registers register_x <<< 1) &&& 0xFE) % 256) }

/-- The handler `Chip8::_set_address_register`. -/
def _set_address_register (s : Chip8 D) (address _register_x _register_y _value : Nat) :
    Chip8 D :=
  { s with address_register := address }

/-- The handler `Chip8::_jump_offset`. -/
def _jump_offset (s : Chip8 D) (address _register_x _register_y _value : Nat) : Chip8 D :=
  { s with program_counter := (address + s.registers 0x00) % 65536 }

/-- The handler `Chip8::_random`: one call of `rand`, which returns the next
of the outputs still to come. -/
def _random (s : Chip8 D) (_address register_x _register_y value : Nat) : Chip8 D :=
  let r := s.rand_outputs 0
  { s with registers := write_at s.registers register_x (((r % 0x100) &&& value) % 256),
           rand_outputs := fun n => s.rand_outputs (n + 1) }

/-- The loop of `Chip8::_draw` from row `i` on, with `count` rows left: each
row is read from memory and written to the display, and the collision results
are accumulated with the call to `write_line` evaluated first. -/
def draw_loop (dev : Devices D) (memory : Memory) (address_register x y : Nat) :
    Nat → Nat → D → Bool → D × Bool
  | _, 0, display, collision => (display, collision)
  | i, count + 1, display, collision =>
    let line := memory.fetch (address_register + i)
    let r := dev.write_line display x (y + i) line
    draw_loop dev memory address_register x y (i + 1) count r.1 (r.2 || collision)

/-- The handler `Chip8::_draw`. -/
def _draw (dev : Devices D) (s : Chip8 D) (_address register_x register_y value : Nat) :
    Chip8 D :=
  let x := s.registers register_x
  let y := s.registers register_y
  let n_lines := value &&& 0x0F
  let r := draw_loop dev s.memory s.address_register x y 0 n_lines s.display false
  { s with display := r.1,
           registers := if r.2 then write_at s.registers 0x0F 0x01
                        else write_at s.registers 0x0F 0x00 }

/-- The handler `Chip8::_skip_key_pressed`. -/
def _skip_key_pressed (s : Chip8 D) (_address register_x _register_y _value : Nat) : Chip8 D :=
  let key := s.registers register_x
  if s.keyboard.is_key_pressed key then
    { s with program_counter := (s.program_counter + 2) % 65536 }
  else s

/-- The handler `Chip8::_skip_key_not_pressed`. -/
def _skip_key_not_pressed (s : Chip8 D) (_address register_x _register_y _value : Nat) :
    Chip8 D :=
  let key := s.registers register_x
  if !s.keyboard.is_key_pressed key then
    { s with program_counter := (s.program_counter + 2) % 65536 }
  else s

/-- The scan of `Chip8::_get_key` from key `i` on, with `count` keys left:
the first key found pressed ends the loop. -/
def get_key_scan (keyboard : Keyboard) : Nat → Nat → Option Nat
  | _, 0 => none
  | i, count + 1 =>
    if keyboard.is_key_pressed i then some i else get_key_scan keyboard (i + 1) count

/-- The handler `Chip8::_get_key`. -/
def _get_key (s : Chip8 D) (_address register_x _register_y _value : Nat) : Chip8 D :=
  match get_key_scan s.keyboard 0 0x10 with
  | some i =>
    { s with registers := write_at s.registers register_x i,
             keyboard := s.keyboard.release_key i }
  | none =>
    { s with program_counter := (s.program_counter + 65536 - 2) % 65536 }

/-- The handler `Chip8::_get_delay_timer`. -/
def _get_delay_timer (s : Chip8 D) (_address register_x _register_y _value : Nat) : Chip8 D :=
  { s with registers := write_at s.registers register_x s.delay_timer }

/-- The handler `Chip8::_set_delay_timer`. -/
def _set_delay_timer (s : Chip8 D) (_address register_x _register_y _value : Nat) : Chip8 D :=
  { s with delay_timer := s.registers register_x }

/-- The handler `Chip8::_set_sound_timer`. -/
def _set_sound_timer (s : Chip8 D) (_address register_x _register_y _value : Nat) : Chip8 D :=
  { s with sound_timer := s.registers register_x }

/-- The handler `Chip8::_add_address_register`. -/
def _add_address_register (s : Chip8 D) (_address register_x _register_y _value : Nat) :
    Chip8 D :=
  let address_register := (s.address_register + s.registers register_x) % 65536
  { s with address_register := address_register,
           registers := if address_register > 0x0FFF then write_at s.registers 0x0F 0x01
                        else s.registers }

/-- The handler `Chip8::_set_address_sprite`. -/
def _set_address_sprite (dev : Devices D) (s : Chip8 D)
    (_address register_x _register_y _value : Nat) : Chip8 D :=
  { s with address_register := dev.get_sprite_address (s.registers register_x) }

/-- The handler `Chip8::_store_bcd`.  The subtractions are on `unsigned char`;
the subtrahend never exceeds the minuend. -/
def _store_bcd (s : Chip8 D) (_address register_x _register_y _value : Nat) : Chip8 D :=
  let bcd_value := s.registers register_x
  let value_100s := bcd_value / 100
  let bcd_value := (bcd_value - 100 * value_100s) % 256
  let value_10s := bcd_value / 10
  let bcd_value := (bcd_value - 10 * value_10s) % 256
  let value_1s := bcd_value
  let memory := s.memory.dump s.address_register value_100s
  let memory := memory.dump (s.address_register + 1) value_10s
  let memory := memory.dump (s.address_register + 2) value_1s
  { s with memory := memory }

/-- The loop of `Chip8::_dump_register` from register `reg_num` on, with
`count` registers left. -/
def dump_loop (registers : Nat → Nat) : Nat → Nat → Memory → Nat → Memory × Nat
  | _, 0, memory, address_register => (memory, address_register)
  | reg_num, count + 1, memory, address_register =>
    dump_loop registers (reg_num + 1) count
      (memory.dump address_register (registers reg_num)) ((address_register + 1) % 65536)

/-- The handler `Chip8::_dump_register`: the loop runs for
`reg_num = 0, ..., register_x`. -/
def _dump_register (s : Chip8 D) (_address register_x _register_y _value : Nat) : Chip8 D :=
  let r := dump_loop s.registers 0 (register_x + 1) s.memory s.address_register
  { s with memory := r.1, address_register := r.2 }

/-- The loop of `Chip8::_load_register` from register `reg_num` on, with
`count` registers left. -/
def load_loop (memory : Memory) : Nat → Nat → (Nat → Nat) → Nat → (Nat → Nat) × Nat
  | _, 0, registers, address_register => (registers, address_register)
  | reg_num, count + 1, registers, address_register =>
    load_loop memory (reg_num + 1) count
      (write_at registers reg_num (memory.fetch address_register))
      ((address_register + 1) % 65536)

/-- The handler `Chip8::_load_register`: the loop runs for
`reg_num = 0, ..., register_x`. -/
def _load_register (s : Chip8 D) (_address register_x _register_y _value : Nat) : Chip8 D :=
  let r := load_loop s.memory 0 (register_x + 1) s.registers s.address_register
  { s with registers := r.1, address_register := r.2 }

/-- The handler `Chip8::_invalid_opcode`: a diagnostic, no change of state. -/
def _invalid_opcode (s : Chip8 D) (_opcode : Nat) : Chip8 D :=
  s

/-- The call `(this->*operation)(address, register_x, register_y, value)`. -/
def run_operation (dev : Devices D) (operation : Operation) (s : Chip8 D)
    (address register_x register_y value : Nat) : Chip8 D :=
  match operation with
  | ._clear_screen => _clear_screen dev s address register_x register_y value
  | ._return => _return s address register_x register_y value
  | ._system_call => _system_call s address register_x register_y value
  | ._jump => _jump s address register_x register_y value
  | ._call => _call s address register_x register_y value
  | ._skip_equal_register_value => _skip_equal_register_value s address register_x register_y value
  | ._skip_not_equal_register_value =>
    _skip_not_equal_register_value s address register_x register_y value
  | ._skip_equal_register_register =>
    _skip_equal_register_register s address register_x register_y value
  | ._assign_register_value => _assign_register_value s address register_x register_y value
  | ._add_register_value => _add_register_value s address register_x register_y value
  | ._assign_register_register => _assign_register_register s address register_x register_y value
  | ._or => _or s address register_x register_y value
  | ._and => _and s address register_x register_y value
  | ._xor => _xor s address register_x register_y value
  | ._add_register_register => _add_register_register s address register_x register_y value
  | ._subtract_register_register =>
    _subtract_register_register s address register_x register_y value
  | ._shift_right => _shift_right s address register_x register_y value
  | ._subtract_negative_register_register =>
    _subtract_negative_register_register s address register_x register_y value
  | ._shift_left => _shift_left s address register_x register_y value
  | ._skip_not_equal_register_register =>
    _skip_not_equal_register_register s address register_x register_y value
  | ._set_address_register => _set_address_register s address register_x register_y value
  | ._jump_offset => _jump_offset s address register_x register_y value
  | ._random => _random s address register_x register_y value
  | ._draw => _draw dev s address register_x register_y value
  | ._skip_key_pressed => _skip_key_pressed s address register_x register_y value
  | ._skip_key_not_pressed => _skip_key_not_pressed s address register_x register_y value
  | ._get_delay_timer => _get_delay_timer s address register_x register_y value
  | ._get_key => _get_key s address register_x register_y value
  | ._set_delay_timer => _set_delay_timer s address register_x register_y value
  | ._set_sound_timer => _set_sound_timer s address register_x register_y value
  | ._add_address_register => _add_address_register s address register_x register_y value
  | ._set_address_sprite => _set_address_sprite dev s address register_x register_y value
  | ._store_bcd => _store_bcd s address register_x register_y value
  | ._dump_register => _dump_register s address register_x register_y value
  | ._load_register => _load_register s address register_x register_y value

/-- The word `Chip8::cycle` fetches: two bytes at the program counter, the
high byte at the lower address. -/
def fetch_opcode (s : Chip8 D) : Nat :=
  ((s.memory.fetch s.program_counter <<< 8) ||| s.memory.fetch (s.program_counter + 1)) % 65536

/-- The key `opnum` that `Chip8::cycle` looks up for a word: the top nybble,
refined by the three tests of the source in their order. -/
def decode_opnum (opcode : Nat) : Nat :=
  let opnum := opcode &&& 0xF000
  let opnum :=
    if opnum = 0x0000 then
      if (opcode &&& 0x00FF) = 0x00E0 ∨ (opcode &&& 0x00FF) = 0x00EE then opcode &&& 0xF0FF
      else opnum
    else opnum
  let opnum :=
    if opnum = 0x5000 ∨ opnum = 0x8000 ∨ opnum = 0x9000 then opcode &&& 0xF00F else opnum
  let opnum :=
    if opnum = 0xE000 ∨ opnum = 0xF000 then opcode &&& 0xF0FF else opnum
  opnum

/-- The function `Chip8::cycle`. -/
def cycle (dev : Devices D) (s : Chip8 D) : Chip8 D :=
  let opcode := fetch_opcode s
  let s := { s with program_counter := (s.program_counter + 2) % 65536 }
  let address := opcode &&& 0x0FFF
  let register_x := ((opcode &&& 0x0F00) >>> 8) % 256
  let register_y := ((opcode &&& 0x00F0) >>> 4) % 256
  let value := (opcode &&& 0x00FF) % 256
  match operation_map (decode_opnum opcode) with
  | some operation => run_operation dev operation s address register_x register_y value
  | none => _invalid_opcode s opcode

/-- The driver calling `cycle` `n` times in a row. -/
def cycles (dev : Devices D) : Nat → Chip8 D → Chip8 D
  | 0, s => s
  | n + 1, s => cycles dev n (cycle dev s)

/-- One call of the external driver: a cycle or a timer tick. -/
inductive DriverCall where
  | cycle
  | cycle_delay
  | cycle_sound
  deriving DecidableEq, Repr

/-- The driver making a sequence of calls on the core. -/
def drive (dev : Devices D) : List DriverCall → Chip8 D → Chip8 D
  | [], s => s
  | .cycle :: rest, s => drive dev rest (cycle dev s)
  | .cycle_delay :: rest, s => drive dev rest (cycle_delay s)
  | .cycle_sound :: rest, s => drive dev rest (cycle_sound s)

/-- Successive `_call` handlers, one per target address.  The handler does not
read its other three arguments. -/
def calls : List Nat → Chip8 D → Chip8 D
  | [], s => s
  | address :: rest, s => calls rest (_call s address 0 0 0)

end Chip8

/-! ## Concrete machines used to evaluate the handlers -/

/-- Devices of a machine without a display: nothing is drawn, nothing collides. -/
def no_devices : Devices Unit :=
  { clear := fun d => d,
    write_line := fun d _ _ _ => (d, false),
    get_sprite_address := fun digit => 5 * digit }

/-- A machine with zeroed memory, no key pressed and all fields as after `reset`. -/
def blank : Chip8 Unit :=
  { memory := { cells := fun _ => 0 },
    display := (),
    keyboard := { keys := fun _ => false },
    call_stack := fun _ => 0,
    call_stack_size := CALL_STACK_SIZE,
    registers := fun _ => 0,
    address_register := 0,
    program_counter := 0x200,
    stack_pointer := 0,
    delay_timer := 0,
    sound_timer := 0,
    rand_outputs := fun _ => 0 }

/-- The machine `blank` with `V0 = v0` and `VF = vf`. -/
def with_v0_vf (v0 vf : Nat) : Chip8 Unit :=
  { blank with registers := fun i => if i = 0x0 then v0 else if i = 0xF then vf else 0 }

/-- A program of two calls: `2202` at `0x200` and `2204` at `0x202`. -/
def two_calls_program : Memory :=
  { cells := fun a =>
      if a = 0x200 then 0x22 else if a = 0x201 then 0x02
      else if a = 0x202 then 0x22 else if a = 0x203 then 0x04 else 0 }

/-- A core built by the four-argument constructor with a call stack of one
slot, holding `two_calls_program`, after `reset`. -/
def one_slot_machine : Chip8 Unit :=
  Chip8.reset (Chip8.create4 two_calls_program () { keys := fun _ => false } 1 blank)

/-- A machine stopped on the instruction `F30A` at `0x200`, no key pressed. -/
def waiting_machine : Chip8 Unit :=
  { blank with memory := { cells := fun a => if a = 0x200 then 0xF3 else if a = 0x201 then 0x0A else 0 } }

/-- Sixteen call targets, `0x300, 0x310, ..., 0x3F0`. -/
def sixteen_targets : List Nat :=
  [0x300, 0x310, 0x320, 0x330, 0x340, 0x350, 0x360, 0x370,
   0x380, 0x390, 0x3A0, 0x3B0, 0x3C0, 0x3D0, 0x3E0, 0x3F0]

/-- A machine with the keys `3` and `7` pressed. -/
def keys_3_7_machine : Chip8 Unit :=
  { blank with keyboard := { keys := fun key => key = 3 || key = 7 } }

/-- A machine with `V2 = 156` and the address register at `0x300`. -/
def bcd_machine : Chip8 Unit :=
  { blank with registers := fun i => if i = 2 then 156 else 0,
               address_register := 0x300 }

/-- A machine with both timers at `3`. -/
def timers_machine : Chip8 Unit :=
  { blank with delay_timer := 3, sound_timer := 3 }

/-- A machine in the middle of a run: registers, timers, stack pointer,
address register and program counter all away from their reset values. -/
def busy_machine : Chip8 Unit :=
  { blank with registers := fun i => i + 1,
               delay_timer := 9,
               sound_timer := 7,
               stack_pointer := 2,
               address_register := 0x345,
               program_counter := 0x2A6 }

/-- A machine stopped on the word `5001` at `0x200`, which no handler takes. -/
def unrecognized_machine : Chip8 Unit :=
  { busy_machine with
      memory := { cells := fun a => if a = 0x200 then 0x50 else if a = 0x201 then 0x01 else 0 },
      program_counter := 0x200 }

/-- The step between the dump and the load of the round trip: registers
`0..register_x` overwritten with zero, the address register set back to `base`. -/
def zero_and_rewind {D : Type} (s : Chip8 D) (register_x base : Nat) : Chip8 D :=
  { s with registers := fun i => if i ≤ register_x then 0 else s.registers i,
           address_register := base }

/-- A machine with `V[i] = i + 1` whose address register holds `0xFFFF`. -/
def wrap_machine : Chip8 Unit :=
  { blank with registers := fun i => i + 1, address_register := 0xFFFF }

/-! ## The draw instruction as the specification words it -/

/-- The rows the specification has `draw` issue: for `i` in `[0, n)`, `n` the
low nibble of `value`, the byte at `address_register + i`, at `(V[x], V[y] + i)`.
A row is the triple of its two coordinates and its byte. -/
def spec_sprite_rows {D : Type} (s : Chip8 D) (register_x register_y value : Nat) :
    List (Nat × Nat × Nat) :=
  (List.range (value &&& 0x0F)).map
    (fun i => (s.registers register_x, s.registers register_y + i,
               s.memory.fetch (s.address_register + i)))

/-- Every row of a list drawn in turn, whatever the earlier rows reported:
the display after the last row and the collision result of each row. -/
def spec_draw_rows {D : Type} (dev : Devices D) : List (Nat × Nat × Nat) → D → D × List Bool
  | [], display => (display, [])
  | row :: rest, display =>
    let r := dev.write_line display row.1 row.2.1 row.2.2
    let r' := spec_draw_rows dev rest r.1
    (r'.1, r.2 :: r'.2)

/-- A display that records the rows it is asked to draw and reports a
collision for the rows at height `0`. -/
def recording_devices : Devices (List (Nat × Nat × Nat)) :=
  { clear := fun _ => [],
    write_line := fun d x y line => (d ++ [(x, y, line)], y == 0),
    get_sprite_address := fun digit => 5 * digit }

/-- A machine with a sprite of three rows `0xF0, 0x90, 0xF0` at `0x300`,
`V1 = 4`, `V2 = 0`, the address register at `0x300`, on a recording display. -/
def recording_machine : Chip8 (List (Nat × Nat × Nat)) :=
  { memory := { cells := fun a =>
      if a = 0x300 then 0xF0 else if a = 0x301 then 0x90 else if a = 0x302 then 0xF0 else 0 },
    display := [],
    keyboard := { keys := fun _ => false },
    call_stack := fun _ => 0,
    call_stack_size := CALL_STACK_SIZE,
    registers := fun i => if i = 1 then 4 else 0,
    address_register := 0x300,
    program_counter := 0x202,
    stack_pointer := 0,
    delay_timer := 0,
    sound_timer := 0,
    rand_outputs := fun _ => 0 }

/-! ## The display of the specification -/

/-- Modelled from the spec: the `Display` class (`core/display.h`), a grid of
pixels that are set or unset.  The specification gives neither the size of the
grid nor a rule at its edges: here every pair of coordinates names a pixel. -/
structure Display where
  pixels : Nat → Nat → Bool

namespace Display

/-- Modelled from the spec: `Display::clear`, every pixel unset. -/
def clear (_d : Display) : Display :=
  { pixels := fun _ _ => false }

/-- Modelled from the spec: `Display::write_line`, the row of 8 pixels of
`line` drawn at `(x, y)` by exclusive or, the most significant bit leftmost;
the result reports whether a pixel that was set has become unset. -/
def write_line (d : Display) (x y line : Nat) : Display × Bool :=
  ({ pixels := fun px py =>
       if py = y ∧ x ≤ px ∧ px < x + 8 then xor (d.pixels px py) (line.testBit (7 - (px - x)))
       else d.pixels px py },
   (List.range 8).any (fun j => d.pixels (x + j) y && line.testBit (7 - j)))

end Display

/-- The devices of a machine whose display is the display of the
specification; the glyph table plays no part in drawing and is a parameter. -/
def xor_devices (get_sprite_address : Nat → Nat) : Devices Display :=
  { clear := Display.clear,
    write_line := Display.write_line,
    get_sprite_address := get_sprite_address }

/-- A machine with a cleared display, the one-row sprite `0xFF` at `0x300`,
the address register at `0x300` and `V0 = V1 = 0`. -/
def sprite_machine : Chip8 Display :=
  { memory := { cells := fun a => if a = 0x300 then 0xFF else 0 },
    display := Display.clear { pixels := fun _ _ => true },
    keyboard := { keys := fun _ => false },
    call_stack := fun _ => 0,
    call_stack_size := CALL_STACK_SIZE,
    registers := fun _ => 0,
    address_register := 0x300,
    program_counter := 0x202,
    stack_pointer := 0,
    delay_timer := 0,
    sound_timer := 0,
    rand_outputs := fun _ => 0 }

/-- A machine with the address register at `0x0FF0`, `V0 = 0x20`, `V1 = 0x05`. -/
def address_machine : Chip8 Unit :=
  { blank with registers := fun i => if i = 0 then 0x20 else if i = 1 then 0x05 else 0,
               address_register := 0x0FF0 }

/-- A machine whose random source returns `0x1234`, then `0x1235`, and so on,
with `V[i] = i + 1`. -/
def random_machine : Chip8 Unit :=
  { blank with registers := fun i => i + 1, rand_outputs := fun n => 0x1234 + n }

/-! ## The dispatch by fields of the word -/

/-- The key that `decode_opnum` computes, as a function of the top nibble and
the low byte of the word, with the masks of the source written as arithmetic. -/
def decode_fields (top low_byte : Nat) : Nat :=
  let opnum := 4096 * top
  let opnum :=
    if opnum = 0x0000 then
      if low_byte = 0x00E0 ∨ low_byte = 0x00EE then 4096 * top + low_byte
      else opnum
    else opnum
  let opnum :=
    if opnum = 0x5000 ∨ opnum = 0x8000 ∨ opnum = 0x9000 then 4096 * top + low_byte % 16
    else opnum
  let opnum :=
    if opnum = 0xE000 ∨ opnum = 0xF000 then 4096 * top + low_byte else opnum
  opnum

/-- The words that have a handler, as the specification lists them, by top
nibble and low byte: top nibble `0,1,2,3,4,6,7,A,B,C,D`; or `5` or `9` with low
nibble `0`; or `8` with low nibble in `0..7, E`; or `E` with low byte `9E` or
`A1`; or `F` with low byte in `07, 0A, 15, 18, 1E, 29, 33, 55, 65`. -/
def spec_recognized_fields (top low_byte : Nat) : Bool :=
  [0x0, 0x1, 0x2, 0x3, 0x4, 0x6, 0x7, 0xA, 0xB, 0xC, 0xD].contains top
    || ((top == 0x5 || top == 0x9) && low_byte % 16 == 0)
    || (top == 0x8 && [0x0, 0x1, 0x2, 0x3, 0x4, 0x5, 0x6, 0x7, 0xE].contains (low_byte % 16))
    || (top == 0xE && (low_byte == 0x9E || low_byte == 0xA1))
    || (top == 0xF
        && [0x07, 0x0A, 0x15, 0x18, 0x1E, 0x29, 0x33, 0x55, 0x65].contains low_byte)

/-- The words that have a handler, as the specification lists them. -/
def spec_recognized (w : Nat) : Bool :=
  spec_recognized_fields (w / 4096) (w % 256)

/-- The handler the specification gives a word of top nibble `0`, by its low
byte: clear-screen for `E0`, return for `EE`, system-call otherwise. -/
def spec_zero_family (low_byte : Nat) : Operation :=
  if low_byte = 0xE0 then Operation._clear_screen
  else if low_byte = 0xEE then Operation._return
  else Operation._system_call

/-- A machine stopped on the word `6A42` at `0x200`. -/
def assign_machine : Chip8 Unit :=
  { blank with memory := { cells := fun a => if a = 0x200 then 0x6A else if a = 0x201 then 0x42 else 0 } }

/-- A machine stopped on the word `6A42` at `0xFFFE`, the last word a 16-bit
program counter can address. -/
def top_machine : Chip8 Unit :=
  { blank with
      memory := { cells := fun a => if a = 0xFFFE then 0x6A else if a = 0xFFFF then 0x42 else 0 },
      program_counter := 0xFFFE }

/-- A machine stopped on the word `F315` at `0x200`, with `V3 = 0x2C` and both
timers at `9`. -/
def set_timer_machine : Chip8 Unit :=
  { blank with
      memory := { cells := fun a => if a = 0x200 then 0xF3 else if a = 0x201 then 0x15 else 0 },
      registers := fun i => if i = 3 then 0x2C else 0,
      delay_timer := 9,
      sound_timer := 9 }

/-! ## The text helpers of the GTK view (`src/src/view/glade_gui.cpp`) -/

/-- The text that `ss << std::hex << n` appends for an unsigned `n`: its
hexadecimal digits in lower case, without leading zeros, `0` for zero. -/
def hex_text (n : Nat) : String :=
  String.mk (Nat.toDigits 16 n)

/-- The function `byte_to_string` of `glade_gui.cpp`. -/
def byte_to_string (value : Nat) (prepend_0x : Bool) : String :=
  let ss := ""
  let ss := if prepend_0x then ss ++ "0x" else ss
  let ss := if value < 0x0F then ss ++ "0" else ss
  ss ++ hex_text value

/-- The function `short_to_string` of `glade_gui.cpp`. -/
def short_to_string (value : Nat) (prepend_0x : Bool) : String :=
  let ss := ""
  let ss := if prepend_0x then ss ++ "0x" else ss
  let ss := if value < 0x0FFF then ss ++ "0" else ss
  let ss := if value < 0x00FF then ss ++ "0" else ss
  let ss := if value < 0x000F then ss ++ "0" else ss
  ss ++ hex_text value

/-! ## The glyph lookup of the specification -/

end Tidwell8

/-! ## Theorems -/

namespace Tidwell8

open Chip8

variable {D : Type}

/-! ### Arithmetic helpers -/

theorem land_255 (n : Nat) : n &&& 0x00FF = n % 256 :=
  Nat.and_pow_two_sub_one_eq_mod n 8

theorem write_at_same (a : Nat → Nat) (i v : Nat) : write_at a i v i = v := by
  simp [write_at]

theorem write_at_other (a : Nat → Nat) (i v j : Nat) (h : j ≠ i) : write_at a i v j = a j := by
  simp [write_at, h]

/-! ### Add two registers (8xy4) -/

/-- C8: after `_add_register_register`, `V[x]` is `(old V[x] + old V[y]) mod 256`
for every `x` and `y` (also `x = y` and `x = 0xF`), and no register other than
`x` and `0xF` changes. -/
theorem add_register_register_result (s : Chip8 D) (address register_x register_y value : Nat) :
    (_add_register_register s address register_x register_y value).registers register_x
        = (s.registers register_x + s.registers register_y) % 256
      ∧ ∀ j, j ≠ register_x → j ≠ 0x0F →
          (_add_register_register s address register_x register_y value).registers j
            = s.registers j := by
  constructor
  · simp only [_add_register_register, write_at_same, land_255]
    omega
  · intro j hjx hjf
    simp only [_add_register_register]
    rw [write_at_other _ _ _ _ hjx]
    split <;> exact write_at_other _ _ _ _ hjf

/-- The two examples of C8: `0xFF + 0x02` gives `0x01` and `0x01 + 0x01` gives
`0x02` (here with `x = 0`, `y = 0xF`, and with `x = y = 0`). -/
theorem add_register_register_result_witness :
    (_add_register_register (with_v0_vf 0xFF 0x02) 0 0x0 0xF 0).registers 0x0 = 0x01
      ∧ (_add_register_register (with_v0_vf 0x01 0x00) 0 0x0 0x0 0).registers 0x0 = 0x02
      ∧ (_add_register_register (with_v0_vf 0xFF 0x02) 0 0x0 0xF 0).registers 0x7
          = (with_v0_vf 0xFF 0x02).registers 0x7 :=
  ⟨(add_register_register_result (with_v0_vf 0xFF 0x02) 0 0x0 0xF 0).1,
   (add_register_register_result (with_v0_vf 0x01 0x00) 0 0x0 0x0 0).1,
   (add_register_register_result (with_v0_vf 0xFF 0x02) 0 0x0 0xF 0).2 0x7 (by decide) (by decide)⟩

/-- For a target register other than `0xF`, `_add_register_register` leaves the
carry in register `0xF`. -/
theorem add_register_register_flag_of_ne (s : Chip8 D) (address register_x register_y value : Nat)
    (hx : register_x ≠ 0x0F) (hvx : s.registers register_x < 256)
    (hvy : s.registers register_y < 256) :
    (_add_register_register s address register_x register_y value).registers 0x0F
      = if s.registers register_x + s.registers register_y > 255 then 1 else 0 := by
  simp only [_add_register_register]
  rw [write_at_other _ _ _ _ (Ne.symm hx)]
  have h : (s.registers register_x + s.registers register_y) % 65536
      = s.registers register_x + s.registers register_y := Nat.mod_eq_of_lt (by omega)
  rw [h]
  split <;> exact write_at_same _ _ _

/-- C1: with `x = 0xF` the carry stored by `_add_register_register` is
overwritten by the total: from `VF = 0x01`, `V0 = 0x01` the handler leaves
`0x02` in register `0xF`, although the sum `2` does not exceed `255`. -/
theorem add_register_register_flag_lost :
    (_add_register_register (with_v0_vf 0x01 0x01) 0 0xF 0x0 0).registers 0x0F = 0x02
      ∧ ¬ ((with_v0_vf 0x01 0x01).registers 0xF + (with_v0_vf 0x01 0x01).registers 0x0 > 255)
      ∧ (_add_register_register (with_v0_vf 0x01 0x01) 0 0xF 0x0 0).registers 0x0F
          ≠ (if (with_v0_vf 0x01 0x01).registers 0xF + (with_v0_vf 0x01 0x01).registers 0x0 > 255
              then 1 else 0) := by
  decide

/-! ### Subtract (8xy5) -/

/-- For operand registers other than `0xF`, `_subtract_register_register`
leaves `(old V[x] - old V[y]) mod 256` in `V[x]` and the no-borrow bit in
register `0xF`. -/
theorem subtract_register_register_of_ne (s : Chip8 D)
    (address register_x register_y value : Nat)
    (hx : register_x ≠ 0x0F) (hy : register_y ≠ 0x0F)
    (hvx : s.registers register_x < 256) (hvy : s.registers register_y < 256) :
    ((_subtract_register_register s address register_x register_y value).registers register_x : Int)
        = ((s.registers register_x : Int) - (s.registers register_y : Int)) % 256
      ∧ (_subtract_register_register s address register_x register_y value).registers 0x0F
        = if s.registers register_x ≥ s.registers register_y then 1 else 0 := by
  simp only [_subtract_register_register]
  rw [write_at_same, write_at_other _ _ _ _ (Ne.symm hx)]
  by_cases h : s.registers register_x ≥ s.registers register_y
  · simp only [h, if_true]
    rw [write_at_other _ _ _ _ hy, write_at_same]
    refine ⟨?_, rfl⟩
    omega
  · simp only [h, if_false]
    rw [write_at_other _ _ _ _ hy, write_at_same]
    refine ⟨?_, rfl⟩
    omega

/-- C2: with `y = 0xF` the subtrahend is read after the flag has been stored:
from `V0 = 0x05`, `VF = 0x0A` the handler leaves `0x05` in `V0`, not
`(5 - 10) mod 256 = 0xFB`. -/
theorem subtract_register_register_reads_flag :
    (_subtract_register_register (with_v0_vf 0x05 0x0A) 0 0x0 0xF 0).registers 0x0 = 0x05
      ∧ (((with_v0_vf 0x05 0x0A).registers 0x0 : Int)
          - ((with_v0_vf 0x05 0x0A).registers 0xF : Int)) % 256 = 0xFB := by
  decide

/-- C3: with `x = 0xF` the no-borrow bit stored by `_subtract_register_register`
is overwritten by the difference: from `VF = 0x0A`, `V0 = 0x05` the handler
leaves `0x05` in register `0xF`, although `old V[x] >= old V[y]` asks for `1`. -/
theorem subtract_register_register_flag_lost :
    (_subtract_register_register (with_v0_vf 0x05 0x0A) 0 0xF 0x0 0).registers 0x0F = 0x05
      ∧ (with_v0_vf 0x05 0x0A).registers 0xF ≥ (with_v0_vf 0x05 0x0A).registers 0x0
      ∧ (_subtract_register_register (with_v0_vf 0x05 0x0A) 0 0xF 0x0 0).registers 0x0F
          ≠ (if (with_v0_vf 0x05 0x0A).registers 0xF ≥ (with_v0_vf 0x05 0x0A).registers 0x0
              then 1 else 0) := by
  decide

/-! ### Subtract reversed (8xy7) -/

/-- C9: for every `x` other than `0xF` and every `y`, after
`_subtract_negative_register_register` `V[x]` is `(old V[y] - old V[x]) mod 256`
and register `0xF` holds `1` if `old V[y] >= old V[x]` and `0` otherwise. -/
theorem subtract_negative_register_register_spec (s : Chip8 D)
    (address register_x register_y value : Nat)
    (hx : register_x ≠ 0x0F)
    (hvx : s.registers register_x < 256) (hvy : s.registers register_y < 256) :
    ((_subtract_negative_register_register s address register_x register_y value).registers
          register_x : Int)
        = ((s.registers register_y : Int) - (s.registers register_x : Int)) % 256
      ∧ (_subtract_negative_register_register s address register_x register_y value).registers 0x0F
        = if s.registers register_y ≥ s.registers register_x then 1 else 0 := by
  simp only [_subtract_negative_register_register]
  rw [write_at_same, write_at_other _ _ _ _ (Ne.symm hx)]
  by_cases h : s.registers register_y ≥ s.registers register_x
  · simp only [h, if_true]
    rw [write_at_other _ _ _ _ hx, write_at_same]
    refine ⟨?_, rfl⟩
    omega
  · simp only [h, if_false]
    rw [write_at_other _ _ _ _ hx, write_at_same]
    refine ⟨?_, rfl⟩
    omega

/-- C9 at `x = 0`, `y = 0xF`, `V0 = 0x0A`, `VF = 0x05`: a borrow, `V0` becomes
`0xFB` and register `0xF` becomes `0`. -/
theorem subtract_negative_register_register_spec_witness :
    ((_subtract_negative_register_register (with_v0_vf 0x0A 0x05) 0 0x0 0xF 0).registers 0x0 : Int)
        = (((with_v0_vf 0x0A 0x05).registers 0xF : Int)
            - ((with_v0_vf 0x0A 0x05).registers 0x0 : Int)) % 256
      ∧ (_subtract_negative_register_register (with_v0_vf 0x0A 0x05) 0 0x0 0xF 0).registers 0x0F
        = if (with_v0_vf 0x0A 0x05).registers 0xF ≥ (with_v0_vf 0x0A 0x05).registers 0x0
            then 1 else 0 :=
  subtract_negative_register_register_spec (with_v0_vf 0x0A 0x05) 0 0x0 0xF 0
    (by decide) (by decide) (by decide)

/-! ### The call stack -/

/-- C4: a core constructed with a call stack of one slot: after `reset` and
two cycles running two `call` instructions the stack pointer is `2`, above the
capacity `1`, and the second call has stored its return address `0x204` in
slot `1`, outside the allocated stack. -/
theorem stack_pointer_exceeds_capacity :
    one_slot_machine.call_stack_size = 1
      ∧ one_slot_machine.stack_pointer = 0
      ∧ (drive no_devices [.cycle] one_slot_machine).stack_pointer = 1
      ∧ (drive no_devices [.cycle] one_slot_machine).call_stack 1 = 0
      ∧ (drive no_devices [.cycle, .cycle] one_slot_machine).call_stack 1 = 0x204
      ∧ (drive no_devices [.cycle, .cycle] one_slot_machine).stack_pointer = 2
      ∧ ¬ ((drive no_devices [.cycle, .cycle] one_slot_machine).stack_pointer
            ≤ (drive no_devices [.cycle, .cycle] one_slot_machine).call_stack_size) := by
  decide

/-- No handler takes the stack pointer above `CALL_STACK_SIZE`. -/
theorem run_operation_stack_pointer_le (dev : Devices D) (operation : Operation) (s : Chip8 D)
    (address register_x register_y value : Nat) (h : s.stack_pointer ≤ CALL_STACK_SIZE) :
    (run_operation dev operation s address register_x register_y value).stack_pointer
      ≤ CALL_STACK_SIZE := by
  have h16 : s.stack_pointer ≤ 16 := h
  show _ ≤ 16
  cases operation <;> simp only [run_operation, _clear_screen, _return, _system_call, _jump, _call,
    _skip_equal_register_value, _skip_not_equal_register_value, _skip_equal_register_register,
    _assign_register_value, _add_register_value, _assign_register_register, _or, _and, _xor,
    _add_register_register, _subtract_register_register, _shift_right,
    _subtract_negative_register_register, _shift_left, _skip_not_equal_register_register,
    _set_address_register, _jump_offset, _random, _draw, _skip_key_pressed,
    _skip_key_not_pressed, _get_delay_timer, _get_key, _set_delay_timer, _set_sound_timer,
    _add_address_register, _set_address_sprite, _store_bcd, _dump_register, _load_register,
    CALL_STACK_SIZE] <;> (try split) <;> (try simp only []) <;> omega

/-- From a reset state, whatever the length the call stack was allocated with,
no sequence of cycles and timer ticks takes the stack pointer above
`CALL_STACK_SIZE`. -/
theorem drive_stack_pointer_le (dev : Devices D) (driver_calls : List DriverCall) :
    ∀ s : Chip8 D, s.stack_pointer ≤ CALL_STACK_SIZE →
      (drive dev driver_calls s).stack_pointer ≤ CALL_STACK_SIZE := by
  induction driver_calls with
  | nil => intro s h; exact h
  | cons c rest ih =>
    intro s h
    cases c with
    | cycle =>
      apply ih
      simp only [cycle]
      split
      · exact run_operation_stack_pointer_le dev _ _ _ _ _ _ h
      · exact h
    | cycle_delay =>
      apply ih
      simp only [cycle_delay]
      split <;> exact h
    | cycle_sound =>
      apply ih
      simp only [cycle_sound]
      split <;> exact h

/-- After `reset` the bound on the stack pointer is `CALL_STACK_SIZE`, for
every length of the call stack. -/
theorem reset_drive_stack_pointer_le (dev : Devices D) (driver_calls : List DriverCall)
    (s : Chip8 D) :
    (drive dev driver_calls (reset s)).stack_pointer ≤ CALL_STACK_SIZE :=
  drive_stack_pointer_le dev driver_calls (reset s) (Nat.zero_le _)

/-- C5: from a stack pointer below `CALL_STACK_SIZE`, `_call` followed by
`_return` restores the program counter that `_call` found and the stack
pointer. -/
theorem call_return_round_trip (s : Chip8 D)
    (address register_x register_y value address' register_x' register_y' value' : Nat)
    (h : s.stack_pointer < CALL_STACK_SIZE) :
    (_return (_call s address register_x register_y value)
        address' register_x' register_y' value').program_counter = s.program_counter
      ∧ (_return (_call s address register_x register_y value)
        address' register_x' register_y' value').stack_pointer = s.stack_pointer := by
  have h16 : s.stack_pointer < 16 := h
  have hne : s.stack_pointer ≠ CALL_STACK_SIZE := Nat.ne_of_lt h
  have h1 : (s.stack_pointer + 1) % 256 = s.stack_pointer + 1 := Nat.mod_eq_of_lt (by omega)
  have h2 : (s.stack_pointer + 1 - 1) % 256 = s.stack_pointer := by
    rw [Nat.add_sub_cancel]
    exact Nat.mod_eq_of_lt (by omega)
  simp only [_call, _return, if_neg hne, h1, Nat.succ_ne_zero, if_false, h2, write_at_same,
    and_self]

/-- C5 at depth `0`: a call to `0x300` from `blank` (program counter `0x200`)
and the return. -/
theorem call_return_round_trip_witness :
    (_return (_call blank 0x300 0x3 0x0 0x00) 0x0EE 0x0 0xE 0xEE).program_counter = 0x200
      ∧ (_return (_call blank 0x300 0x3 0x0 0x00) 0x0EE 0x0 0xE 0xEE).stack_pointer = 0 :=
  call_return_round_trip blank 0x300 0x3 0x0 0x00 0x0EE 0x0 0xE 0xEE (by decide)

/-- C7: with the stack pointer at `0`, `_return` gives back the state it was
given: no field changes. -/
theorem return_underflow (s : Chip8 D) (address register_x register_y value : Nat)
    (h : s.stack_pointer = 0) :
    _return s address register_x register_y value = s := by
  simp only [_return, h, if_true]

/-- C7 on `blank`, whose stack pointer is `0`. -/
theorem return_underflow_witness :
    blank.stack_pointer = 0 ∧ _return blank 0x0EE 0x0 0xE 0xEE = blank :=
  ⟨rfl, return_underflow blank 0x0EE 0x0 0xE 0xEE rfl⟩

/-- While the stack pointer stays within `CALL_STACK_SIZE`, successive calls
raise it by one each, keep the slots below it, and store in each new slot the
program counter found by the call that filled it. -/
theorem calls_fill (targets : List Nat) :
    ∀ s : Chip8 D, s.stack_pointer + targets.length ≤ CALL_STACK_SIZE →
      (calls targets s).stack_pointer = s.stack_pointer + targets.length
        ∧ (∀ j, j < s.stack_pointer → (calls targets s).call_stack j = s.call_stack j)
        ∧ (∀ i, i < targets.length →
            (calls targets s).call_stack (s.stack_pointer + i)
              = (calls (targets.take i) s).program_counter) := by
  induction targets with
  | nil =>
    intro s _
    refine ⟨rfl, fun _ _ => rfl, ?_⟩
    intro i hi
    exact absurd hi (Nat.not_lt_zero i)
  | cons a rest ih =>
    intro s hs
    have hlen : (a :: rest).length = rest.length + 1 := rfl
    have h16 : s.stack_pointer + (rest.length + 1) ≤ 16 := by
      rw [← hlen]
      exact hs
    have hne : s.stack_pointer ≠ CALL_STACK_SIZE := by
      show s.stack_pointer ≠ 16
      omega
    have hmod : (s.stack_pointer + 1) % 256 = s.stack_pointer + 1 :=
      Nat.mod_eq_of_lt (by omega)
    have hsp : (_call s a 0 0 0).stack_pointer = s.stack_pointer + 1 := by
      simp only [_call, if_neg hne, hmod]
    have hst : (_call s a 0 0 0).call_stack
        = write_at s.call_stack s.stack_pointer s.program_counter := by
      simp only [_call, if_neg hne]
    have hs1 : (_call s a 0 0 0).stack_pointer + rest.length ≤ CALL_STACK_SIZE := by
      show (_call s a 0 0 0).stack_pointer + rest.length ≤ 16
      omega
    obtain ⟨ih1, ih2, ih3⟩ := ih (_call s a 0 0 0) hs1
    refine ⟨?_, ?_, ?_⟩
    · show (calls rest (_call s a 0 0 0)).stack_pointer = _
      rw [ih1, hsp, hlen]
      omega
    · intro j hj
      show (calls rest (_call s a 0 0 0)).call_stack j = _
      rw [ih2 j (by omega), hst]
      exact write_at_other _ _ _ _ (by omega)
    · intro i hi
      cases i with
      | zero =>
        show (calls rest (_call s a 0 0 0)).call_stack (s.stack_pointer + 0) = s.program_counter
        rw [Nat.add_zero, ih2 _ (by omega), hst]
        exact write_at_same _ _ _
      | succ k =>
        have hk : k < rest.length := by
          rw [hlen] at hi
          omega
        show (calls rest (_call s a 0 0 0)).call_stack (s.stack_pointer + (k + 1))
          = (calls (rest.take k) (_call s a 0 0 0)).program_counter
        have := ih3 k hk
        rw [hsp] at this
        rw [← this]
        congr 1
        omega

/-- C6: from stack pointer `0`, sixteen successive `_call` handlers bring the
stack pointer to `16`, slot `i` holding the program counter found by the
`i`-th call; a further `_call`, and any `_call` on a state whose stack pointer
is `16`, gives back the state unchanged. -/
theorem sixteen_calls_then_overflow (s : Chip8 D) (targets : List Nat)
    (address register_x register_y value : Nat)
    (h0 : s.stack_pointer = 0) (hlen : targets.length = 16) :
    (calls targets s).stack_pointer = 16
      ∧ (∀ i, i < 16 →
          (calls targets s).call_stack i = (calls (targets.take i) s).program_counter)
      ∧ _call (calls targets s) address register_x register_y value = calls targets s
      ∧ (∀ t : Chip8 D, t.stack_pointer = 16 →
          _call t address register_x register_y value = t) := by
  have hfull : ∀ t : Chip8 D, t.stack_pointer = 16 →
      _call t address register_x register_y value = t := by
    intro t ht
    have : t.stack_pointer = CALL_STACK_SIZE := ht
    simp only [_call, this, if_true]
  have hle : s.stack_pointer + targets.length ≤ CALL_STACK_SIZE := by
    rw [h0, hlen]
    decide
  obtain ⟨h1, _, h3⟩ := calls_fill targets s hle
  have hsp : (calls targets s).stack_pointer = 16 := by
    rw [h1, h0, hlen]
  refine ⟨hsp, ?_, hfull _ hsp, hfull⟩
  intro i hi
  have := h3 i (by rw [hlen]; exact hi)
  rw [h0, Nat.zero_add] at this
  exact this

/-- C6 on `blank` and the targets `0x300, ..., 0x3F0`, the seventeenth call
aiming at `0x400`. -/
theorem sixteen_calls_then_overflow_witness :
    (calls sixteen_targets blank).stack_pointer = 16
      ∧ (∀ i, i < 16 →
          (calls sixteen_targets blank).call_stack i
            = (calls (sixteen_targets.take i) blank).program_counter)
      ∧ _call (calls sixteen_targets blank) 0x400 0x4 0x0 0x00 = calls sixteen_targets blank
      ∧ (∀ t : Chip8 Unit, t.stack_pointer = 16 → _call t 0x400 0x4 0x0 0x00 = t) :=
  sixteen_calls_then_overflow blank sixteen_targets 0x400 0x4 0x0 0x00 rfl rfl

/-! ### Get key (Fx0A) -/

/-- The scan of `_get_key` finds nothing when none of the keys it looks at is
pressed. -/
theorem get_key_scan_none (keyboard : Keyboard) (count : Nat) :
    ∀ i, (∀ key, i ≤ key → key < i + count → keyboard.is_key_pressed key = false) →
      get_key_scan keyboard i count = none := by
  induction count with
  | zero =>
    intro i _
    rfl
  | succ n ih =>
    intro i h
    have hi : keyboard.is_key_pressed i = false := h i (Nat.le_refl i) (by omega)
    simp only [get_key_scan, hi, Bool.false_eq_true, if_false]
    exact ih (i + 1) (fun key h1 h2 => h key (by omega) (by omega))

/-- A word whose high byte is `0xF0 .. 0xFF` and whose low byte is `0x0A` is
dispatched to `_get_key`. -/
theorem get_key_dispatch (high : Nat) (h1 : 0xF0 ≤ high) (h2 : high < 0x100) :
    operation_map (decode_opnum (((high <<< 8) ||| 0x0A) % 65536)) = some Operation._get_key := by
  interval_cases high <;> decide

/-- A cycle on a get-key instruction with no key pressed gives back the state
it was given. -/
theorem cycle_get_key_no_key (dev : Devices D) (s : Chip8 D)
    (hpc : s.program_counter < 65536)
    (hhigh : s.memory.fetch s.program_counter / 16 = 0xF)
    (hlow : s.memory.fetch (s.program_counter + 1) = 0x0A)
    (hkeys : ∀ key, key < 16 → s.keyboard.is_key_pressed key = false) :
    cycle dev s = s := by
  have hbyte : s.memory.fetch s.program_counter < 256 := Nat.mod_lt _ (by decide)
  have hd : operation_map (decode_opnum (fetch_opcode s)) = some Operation._get_key := by
    simp only [fetch_opcode, hlow]
    exact get_key_dispatch _ (by omega) hbyte
  have hscan : get_key_scan s.keyboard 0 0x10 = none :=
    get_key_scan_none s.keyboard 0x10 0 (fun key _ h => hkeys key (by omega))
  have hback : ((s.program_counter + 2) % 65536 + 65536 - 2) % 65536 = s.program_counter := by
    omega
  simp only [cycle, hd, run_operation, _get_key, hscan, hback]

/-- C10: when the bytes at the program counter encode `Fx0A` and none of the
keys `0..15` is pressed, one cycle leaves the program counter where it was,
and so do `n` cycles in a row, for every `n`. -/
theorem get_key_no_key_keeps_program_counter (dev : Devices D) (s : Chip8 D)
    (hpc : s.program_counter < 65536)
    (hhigh : s.memory.fetch s.program_counter / 16 = 0xF)
    (hlow : s.memory.fetch (s.program_counter + 1) = 0x0A)
    (hkeys : ∀ key, key < 16 → s.keyboard.is_key_pressed key = false) :
    (cycle dev s).program_counter = s.program_counter
      ∧ ∀ n, (cycles dev n s).program_counter = s.program_counter := by
  have hfix : cycle dev s = s := cycle_get_key_no_key dev s hpc hhigh hlow hkeys
  refine ⟨by rw [hfix], ?_⟩
  intro n
  induction n with
  | zero => rfl
  | succ k ih =>
    show (cycles dev k (cycle dev s)).program_counter = s.program_counter
    rw [hfix]
    exact ih

/-- C10 on `waiting_machine`, stopped on `F30A` at `0x200`. -/
theorem get_key_no_key_keeps_program_counter_witness :
    (cycle no_devices waiting_machine).program_counter = waiting_machine.program_counter
      ∧ ∀ n, (cycles no_devices n waiting_machine).program_counter
          = waiting_machine.program_counter :=
  get_key_no_key_keeps_program_counter no_devices waiting_machine
    (by decide) (by decide) (by decide) (by intro key _; rfl)

/-- The scan of `_get_key` stops on the first pressed key among those it looks
at, when there is one. -/
theorem get_key_scan_some (keyboard : Keyboard) (count : Nat) :
    ∀ i, (∃ key, i ≤ key ∧ key < i + count ∧ keyboard.is_key_pressed key = true) →
      ∃ k, get_key_scan keyboard i count = some k ∧ i ≤ k ∧ k < i + count
        ∧ keyboard.is_key_pressed k = true
        ∧ ∀ j, i ≤ j → j < k → keyboard.is_key_pressed j = false := by
  induction count with
  | zero =>
    intro i h
    obtain ⟨key, h1, h2, _⟩ := h
    omega
  | succ n ih =>
    intro i h
    by_cases hi : keyboard.is_key_pressed i = true
    · refine ⟨i, ?_, Nat.le_refl i, by omega, hi, ?_⟩
      · simp only [get_key_scan, hi, if_true]
      · intro j h1 h2
        omega
    · obtain ⟨key, h1, h2, h3⟩ := h
      have hne : key ≠ i := by
        intro heq
        rw [heq] at h3
        exact hi h3
      obtain ⟨k, hk1, hk2, hk3, hk4, hk5⟩ := ih (i + 1) ⟨key, by omega, by omega, h3⟩
      refine ⟨k, ?_, by omega, by omega, hk4, ?_⟩
      · simp only [get_key_scan, hi, if_false]
        exact hk1
      · intro j hj1 hj2
        by_cases hji : j = i
        · rw [hji]
          simpa using hi
        · exact hk5 j (by omega) hj2

/-- C11: when at least one of the keys `0..15` is pressed, `_get_key` stores
in `V[x]` the smallest pressed key index, releases that key and no other, and
leaves the program counter as it found it. -/
theorem get_key_pressed (s : Chip8 D) (address register_x register_y value : Nat)
    (h : ∃ key, key < 16 ∧ s.keyboard.is_key_pressed key = true) :
    ∃ i, i < 16 ∧ s.keyboard.is_key_pressed i = true
      ∧ (∀ j, j < i → s.keyboard.is_key_pressed j = false)
      ∧ (_get_key s address register_x register_y value).registers register_x = i
      ∧ (∀ r, r ≠ register_x →
          (_get_key s address register_x register_y value).registers r = s.registers r)
      ∧ (_get_key s address register_x register_y value).keyboard.is_key_pressed i = false
      ∧ (∀ j, j ≠ i →
          (_get_key s address register_x register_y value).keyboard.is_key_pressed j
            = s.keyboard.is_key_pressed j)
      ∧ (_get_key s address register_x register_y value).program_counter
          = s.program_counter := by
  obtain ⟨key, hk1, hk2⟩ := h
  obtain ⟨i, hi1, _, hi3, hi4, hi5⟩ :=
    get_key_scan_some s.keyboard 0x10 0 ⟨key, Nat.zero_le key, by omega, hk2⟩
  refine ⟨i, by omega, hi4, fun j hj => hi5 j (Nat.zero_le j) hj, ?_, ?_, ?_, ?_, ?_⟩
  · simp only [_get_key, hi1, write_at_same]
  · intro r hr
    simp only [_get_key, hi1]
    exact write_at_other _ _ _ _ hr
  · simp only [_get_key, hi1, Keyboard.release_key, Keyboard.is_key_pressed, if_true]
  · intro j hj
    simp only [_get_key, hi1, Keyboard.release_key, Keyboard.is_key_pressed, if_neg hj]
  · simp only [_get_key, hi1]

/-- C11 on `keys_3_7_machine`: the keys `3` and `7` are pressed. -/
theorem get_key_pressed_witness :
    ∃ i, i < 16 ∧ keys_3_7_machine.keyboard.is_key_pressed i = true
      ∧ (∀ j, j < i → keys_3_7_machine.keyboard.is_key_pressed j = false)
      ∧ (_get_key keys_3_7_machine 0x50A 0x5 0x0 0x0A).registers 0x5 = i
      ∧ (∀ r, r ≠ 0x5 →
          (_get_key keys_3_7_machine 0x50A 0x5 0x0 0x0A).registers r
            = keys_3_7_machine.registers r)
      ∧ (_get_key keys_3_7_machine 0x50A 0x5 0x0 0x0A).keyboard.is_key_pressed i = false
      ∧ (∀ j, j ≠ i →
          (_get_key keys_3_7_machine 0x50A 0x5 0x0 0x0A).keyboard.is_key_pressed j
            = keys_3_7_machine.keyboard.is_key_pressed j)
      ∧ (_get_key keys_3_7_machine 0x50A 0x5 0x0 0x0A).program_counter
          = keys_3_7_machine.program_counter :=
  get_key_pressed keys_3_7_machine 0x50A 0x5 0x0 0x0A ⟨7, by decide, by decide⟩

/-! ### Store binary-coded decimal (Fx33) -/

/-- C12: for a byte `v` in `V[x]`, `_store_bcd` leaves at `address_register`,
`+1` and `+2` the bytes `v / 100`, `(v / 10) mod 10` and `v mod 10`, each a
decimal digit, with `100 * h + 10 * t + o = v`; the rest of memory, the
registers and the address register are unchanged. -/
theorem store_bcd_digits (s : Chip8 D) (address register_x register_y value : Nat)
    (hv : s.registers register_x < 256) :
    (_store_bcd s address register_x register_y value).memory.fetch s.address_register
        = s.registers register_x / 100
      ∧ (_store_bcd s address register_x register_y value).memory.fetch (s.address_register + 1)
        = (s.registers register_x / 10) % 10
      ∧ (_store_bcd s address register_x register_y value).memory.fetch (s.address_register + 2)
        = s.registers register_x % 10
      ∧ s.registers register_x / 100 ≤ 9
      ∧ (s.registers register_x / 10) % 10 ≤ 9
      ∧ s.registers register_x % 10 ≤ 9
      ∧ 100 * (s.registers register_x / 100) + 10 * ((s.registers register_x / 10) % 10)
          + s.registers register_x % 10 = s.registers register_x
      ∧ (∀ a, a ≠ s.address_register → a ≠ s.address_register + 1 →
          a ≠ s.address_register + 2 →
          (_store_bcd s address register_x register_y value).memory.fetch a = s.memory.fetch a)
      ∧ (_store_bcd s address register_x register_y value).registers = s.registers
      ∧ (_store_bcd s address register_x register_y value).address_register
          = s.address_register := by
  have e0 : s.address_register ≠ s.address_register + 1 := by omega
  have e1 : s.address_register ≠ s.address_register + 2 := by omega
  have e2 : s.address_register + 1 ≠ s.address_register + 2 := by omega
  refine ⟨?_, ?_, ?_, by omega, by omega, by omega, by omega, ?_, rfl, rfl⟩
  · simp only [_store_bcd, Memory.dump, Memory.fetch, if_neg e0, if_neg e1, if_true]
    omega
  · simp only [_store_bcd, Memory.dump, Memory.fetch, if_neg e2, if_true]
    omega
  · simp only [_store_bcd, Memory.dump, Memory.fetch, if_true]
    omega
  · intro a h0 h1 h2
    simp only [_store_bcd, Memory.dump, Memory.fetch, if_neg h0, if_neg h1, if_neg h2]

/-- C12 on `bcd_machine`: `V2 = 156` stores `1`, `5`, `6` at `0x300`,
`0x301`, `0x302`. -/
theorem store_bcd_digits_witness :
    (_store_bcd bcd_machine 0x233 0x2 0x3 0x33).memory.fetch 0x300 = 1
      ∧ (_store_bcd bcd_machine 0x233 0x2 0x3 0x33).memory.fetch 0x301 = 5
      ∧ (_store_bcd bcd_machine 0x233 0x2 0x3 0x33).memory.fetch 0x302 = 6 :=
  ⟨(store_bcd_digits bcd_machine 0x233 0x2 0x3 0x33 (by decide)).1,
   (store_bcd_digits bcd_machine 0x233 0x2 0x3 0x33 (by decide)).2.1,
   (store_bcd_digits bcd_machine 0x233 0x2 0x3 0x33 (by decide)).2.2.1⟩

/-! ### Timer ticks -/

/-- C17: a delay tick takes the delay timer from `t` to `t - 1` when `t > 0`
and leaves `0` at `0`; `n` ticks give `max 0 (t - n)`, a value never above `t`;
the same holds for the sound tick on the sound timer; a tick changes no other
field of the state. -/
theorem timer_ticks (s : Chip8 D) (n : Nat) :
    (cycle_delay s).delay_timer = (if s.delay_timer > 0 then s.delay_timer - 1 else 0)
      ∧ cycle_delay s = { s with delay_timer := (cycle_delay s).delay_timer }
      ∧ (((cycle_delay^[n]) s).delay_timer : Int) = max 0 ((s.delay_timer : Int) - (n : Int))
      ∧ ((cycle_delay^[n]) s).delay_timer ≤ s.delay_timer
      ∧ (cycle_sound s).sound_timer = (if s.sound_timer > 0 then s.sound_timer - 1 else 0)
      ∧ cycle_sound s = { s with sound_timer := (cycle_sound s).sound_timer }
      ∧ (((cycle_sound^[n]) s).sound_timer : Int) = max 0 ((s.sound_timer : Int) - (n : Int))
      ∧ ((cycle_sound^[n]) s).sound_timer ≤ s.sound_timer := by
  have hd : ∀ t : Chip8 D, (cycle_delay t).delay_timer = t.delay_timer - 1 := by
    intro t
    unfold cycle_delay
    split
    · rfl
    · show t.delay_timer = t.delay_timer - 1
      omega
  have hs : ∀ t : Chip8 D, (cycle_sound t).sound_timer = t.sound_timer - 1 := by
    intro t
    unfold cycle_sound
    split
    · rfl
    · show t.sound_timer = t.sound_timer - 1
      omega
  have hdn : ∀ k (t : Chip8 D), ((cycle_delay^[k]) t).delay_timer = t.delay_timer - k := by
    intro k
    induction k with
    | zero => intro t; rfl
    | succ m ih =>
      intro t
      rw [Function.iterate_succ_apply, ih, hd]
      omega
  have hsn : ∀ k (t : Chip8 D), ((cycle_sound^[k]) t).sound_timer = t.sound_timer - k := by
    intro k
    induction k with
    | zero => intro t; rfl
    | succ m ih =>
      intro t
      rw [Function.iterate_succ_apply, ih, hs]
      omega
  refine ⟨?_, ?_, ?_, ?_, ?_, ?_, ?_, ?_⟩
  · rw [hd]
    split <;> omega
  · unfold cycle_delay
    split <;> rfl
  · rw [hdn]
    omega
  · rw [hdn]
    omega
  · rw [hs]
    split <;> omega
  · unfold cycle_sound
    split <;> rfl
  · rw [hsn]
    omega
  · rw [hsn]
    omega

/-! ### Reset -/

/-- C18: `reset` leaves the 16 registers, both timers, the stack pointer and
the address register at `0` and the program counter at `0x200`, from every
state; `reset` after `reset` changes nothing. -/
theorem reset_values (s : Chip8 D) :
    (∀ i, i < 16 → (reset s).registers i = 0)
      ∧ (reset s).delay_timer = 0
      ∧ (reset s).sound_timer = 0
      ∧ (reset s).stack_pointer = 0
      ∧ (reset s).address_register = 0
      ∧ (reset s).program_counter = 0x200
      ∧ reset (reset s) = reset s := by
  refine ⟨?_, rfl, rfl, rfl, rfl, rfl, ?_⟩
  · intro i hi
    simp only [reset, hi, if_true]
  · simp only [reset]
    congr 1
    funext i
    split <;> rfl

/-- C18 on `busy_machine`, whose fields are all away from their reset values. -/
theorem reset_values_witness :
    (∀ i, i < 16 → (reset busy_machine).registers i = 0)
      ∧ (reset busy_machine).delay_timer = 0
      ∧ (reset busy_machine).sound_timer = 0
      ∧ (reset busy_machine).stack_pointer = 0
      ∧ (reset busy_machine).address_register = 0
      ∧ (reset busy_machine).program_counter = 0x200
      ∧ reset (reset busy_machine) = reset busy_machine :=
  reset_values busy_machine

/-- C17 on `timers_machine`: five ticks on a timer at `3`. -/
theorem timer_ticks_witness :
    (((cycle_delay^[5]) timers_machine).delay_timer : Int)
        = max 0 ((timers_machine.delay_timer : Int) - ((5 : Nat) : Int))
      ∧ ((cycle_delay^[5]) timers_machine).delay_timer ≤ timers_machine.delay_timer :=
  ⟨(timer_ticks timers_machine 5).2.2.1, (timer_ticks timers_machine 5).2.2.2.1⟩

/-! ### The opcode table and the dispatch -/

/-- A key found by `lookup` is bound in the list to the value found. -/
theorem lookup_mem (l : List (Nat × Operation)) (k : Nat) (op : Operation) :
    l.lookup k = some op → (k, op) ∈ l := by
  induction l with
  | nil =>
    intro h
    simp [List.lookup] at h
  | cons e rest ih =>
    intro h
    obtain ⟨a, c⟩ := e
    rw [List.lookup_cons] at h
    by_cases hk : k = a
    · subst hk
      simp at h
      subst h
      exact List.mem_cons_self _ _
    · have hb : (k == a) = false := by simpa using hk
      rw [hb] at h
      exact List.mem_cons_of_mem _ (ih h)

/-- Two entries of the opcode table with the same handler have the same key. -/
theorem operation_entries_injective :
    ∀ e1 ∈ create_operation_map, ∀ e2 ∈ create_operation_map, e1.2 = e2.2 → e1.1 = e2.1 := by
  decide

/-- C15: the opcode table has 35 entries, with pairwise distinct keys and
pairwise distinct handlers; two words whose lookup keys are different keys of
the table go to different handlers; `00E0` goes to `_clear_screen` and `0123`
to `_system_call`, `8124` to `_add_register_register` and `8125` to
`_subtract_register_register`. -/
theorem operation_map_distinct_handlers :
    create_operation_map.length = 35
      ∧ (create_operation_map.map Prod.fst).Nodup
      ∧ (create_operation_map.map Prod.snd).Nodup
      ∧ (∀ w1 w2 op1 op2, operation_map (decode_opnum w1) = some op1 →
          operation_map (decode_opnum w2) = some op2 →
          decode_opnum w1 ≠ decode_opnum w2 → op1 ≠ op2)
      ∧ operation_map (decode_opnum 0x00E0) = some Operation._clear_screen
      ∧ operation_map (decode_opnum 0x0123) = some Operation._system_call
      ∧ operation_map (decode_opnum 0x8124) = some Operation._add_register_register
      ∧ operation_map (decode_opnum 0x8125) = some Operation._subtract_register_register := by
  refine ⟨by decide, by decide, by decide, ?_, by decide, by decide, by decide, by decide⟩
  intro w1 w2 op1 op2 h1 h2 hne heq
  have m1 := lookup_mem _ _ _ h1
  have m2 := lookup_mem _ _ _ h2
  exact hne (operation_entries_injective _ m1 _ m2 heq)

/-- C15 on the words `00E0` and `0123`, and `8124` and `8125`. -/
theorem operation_map_distinct_handlers_witness :
    Operation._clear_screen ≠ Operation._system_call
      ∧ Operation._add_register_register ≠ Operation._subtract_register_register :=
  ⟨operation_map_distinct_handlers.2.2.2.1 0x00E0 0x0123 _ _ (by decide) (by decide) (by decide),
   operation_map_distinct_handlers.2.2.2.1 0x8124 0x8125 _ _ (by decide) (by decide) (by decide)⟩

/-- C16: when the lookup key of the fetched word is not in the opcode table,
a cycle advances the 16-bit program counter by 2 and changes no other field:
registers, address register, stack, stack pointer, timers, memory, display
and keyboard are those of the state before. -/
theorem unrecognized_instruction (dev : Devices D) (s : Chip8 D)
    (h : operation_map (decode_opnum (fetch_opcode s)) = none) :
    cycle dev s = { s with program_counter := (s.program_counter + 2) % 65536 }
      ∧ (s.program_counter + 2 < 65536 →
          (cycle dev s).program_counter = s.program_counter + 2) := by
  have hc : cycle dev s = { s with program_counter := (s.program_counter + 2) % 65536 } := by
    simp only [cycle, h, _invalid_opcode]
  refine ⟨hc, ?_⟩
  intro hlt
  rw [hc]
  exact Nat.mod_eq_of_lt hlt

/-- C16 on `unrecognized_machine`, stopped on `5001`; the keys of `5001`,
`8008`, `E000` and `F0FF` are not in the table. -/
theorem unrecognized_instruction_witness :
    (cycle no_devices unrecognized_machine
        = { unrecognized_machine with
              program_counter := (unrecognized_machine.program_counter + 2) % 65536 }
      ∧ (unrecognized_machine.program_counter + 2 < 65536 →
          (cycle no_devices unrecognized_machine).program_counter
            = unrecognized_machine.program_counter + 2))
      ∧ operation_map (decode_opnum 0x5001) = none
      ∧ operation_map (decode_opnum 0x8008) = none
      ∧ operation_map (decode_opnum 0xE000) = none
      ∧ operation_map (decode_opnum 0xF0FF) = none :=
  ⟨unrecognized_instruction no_devices unrecognized_machine (by decide),
   by decide, by decide, by decide, by decide⟩

/-! ### Dump and load registers (Fx55, Fx65) -/

/-- The loop of `_dump_register`, started on a 16-bit address: the `k`-th
iteration stores the byte of register `reg_num + k` at the address `k` steps
on, modulo `65536`; the other cells keep their contents; the address ends
`count` steps on. -/
theorem dump_loop_spec (registers : Nat → Nat) (count : Nat) :
    ∀ reg_num memory address, count ≤ 65536 → address < 65536 →
      (∀ k, k < count →
          (dump_loop registers reg_num count memory address).1.cells ((address + k) % 65536)
            = registers (reg_num + k) % 256)
        ∧ (∀ a, (∀ k, k < count → a ≠ (address + k) % 65536) →
            (dump_loop registers reg_num count memory address).1.cells a = memory.cells a)
        ∧ (dump_loop registers reg_num count memory address).2 = (address + count) % 65536 := by
  induction count with
  | zero =>
    intro reg_num memory address _ ha
    refine ⟨?_, fun _ _ => rfl, ?_⟩
    · intro k hk
      omega
    · show address = (address + 0) % 65536
      omega
  | succ n ih =>
    intro reg_num memory address hn ha
    have hstep : dump_loop registers reg_num (n + 1) memory address
        = dump_loop registers (reg_num + 1) n (memory.dump address (registers reg_num))
            ((address + 1) % 65536) := rfl
    obtain ⟨ih1, ih2, ih3⟩ := ih (reg_num + 1) (memory.dump address (registers reg_num))
      ((address + 1) % 65536) (by omega) (Nat.mod_lt _ (by decide))
    rw [hstep]
    refine ⟨?_, ?_, ?_⟩
    · intro k hk
      cases k with
      | zero =>
        have h0 : (address + 0) % 65536 = address := by omega
        rw [h0, ih2 address (by intro k hk; omega)]
        simp only [Memory.dump, if_true, Nat.add_zero]
      | succ m =>
        have h1 : (address + (m + 1)) % 65536 = ((address + 1) % 65536 + m) % 65536 := by omega
        have h2 : reg_num + (m + 1) = reg_num + 1 + m := by omega
        rw [h1, h2]
        exact ih1 m (by omega)
    · intro a hne
      have hne0 : a ≠ address := by
        have := hne 0 (by omega)
        omega
      rw [ih2 a (by
        intro k hk
        have := hne (k + 1) (by omega)
        omega)]
      simp only [Memory.dump, if_neg hne0]
    · rw [ih3]
      omega

/-- The loop of `_load_register`, started on a 16-bit address: the `k`-th
iteration loads register `reg_num + k` with the byte at the address `k` steps
on, modulo `65536`; the other registers keep their contents; the address ends
`count` steps on. -/
theorem load_loop_spec (memory : Memory) (count : Nat) :
    ∀ reg_num registers address, address < 65536 →
      (∀ k, k < count →
          (load_loop memory reg_num count registers address).1 (reg_num + k)
            = memory.fetch ((address + k) % 65536))
        ∧ (∀ j, (j < reg_num ∨ reg_num + count ≤ j) →
            (load_loop memory reg_num count registers address).1 j = registers j)
        ∧ (load_loop memory reg_num count registers address).2 = (address + count) % 65536 := by
  induction count with
  | zero =>
    intro reg_num registers address ha
    refine ⟨?_, fun _ _ => rfl, ?_⟩
    · intro k hk
      omega
    · show address = (address + 0) % 65536
      omega
  | succ n ih =>
    intro reg_num registers address ha
    have hstep : load_loop memory reg_num (n + 1) registers address
        = load_loop memory (reg_num + 1) n
            (write_at registers reg_num (memory.fetch address)) ((address + 1) % 65536) := rfl
    obtain ⟨ih1, ih2, ih3⟩ := ih (reg_num + 1)
      (write_at registers reg_num (memory.fetch address))
      ((address + 1) % 65536) (Nat.mod_lt _ (by decide))
    rw [hstep]
    refine ⟨?_, ?_, ?_⟩
    · intro k hk
      cases k with
      | zero =>
        have h0 : (address + 0) % 65536 = address := by omega
        rw [h0]
        show (load_loop memory (reg_num + 1) n
          (write_at registers reg_num (memory.fetch address)) ((address + 1) % 65536)).1 reg_num
            = memory.fetch address
        rw [ih2 reg_num (Or.inl (by omega))]
        exact write_at_same _ _ _
      | succ m =>
        have h1 : (address + (m + 1)) % 65536 = ((address + 1) % 65536 + m) % 65536 := by omega
        have h2 : reg_num + (m + 1) = reg_num + 1 + m := by omega
        rw [h1, h2]
        exact ih1 m (by omega)
    · intro j hj
      rw [ih2 j (by omega)]
      exact write_at_other _ _ _ _ (by omega)
    · rw [ih3]
      omega

/-- C14, as the claim states it, fails on a 16-bit address register: from
`address_register = 0xFFFF` and `x = 0` both handlers leave the address
register at `0`, not at `base + x + 1 = 0x10000`; with `x = 1` the dump stores
`V1` at address `0`, not at `base + 1`. -/
theorem dump_load_address_register_wraps :
    (_dump_register wrap_machine 0x055 0x0 0x5 0x55).address_register = 0
      ∧ (_load_register wrap_machine 0x065 0x0 0x6 0x65).address_register = 0
      ∧ (_dump_register wrap_machine 0x055 0x0 0x5 0x55).address_register
          ≠ wrap_machine.address_register + 0 + 1
      ∧ (_load_register wrap_machine 0x065 0x0 0x6 0x65).address_register
          ≠ wrap_machine.address_register + 0 + 1
      ∧ (_dump_register wrap_machine 0x155 0x1 0x5 0x55).memory.fetch 0 = wrap_machine.registers 1
      ∧ (_dump_register wrap_machine 0x155 0x1 0x5 0x55).memory.fetch
          (wrap_machine.address_register + 1) ≠ wrap_machine.registers 1 := by
  decide

/-- C14, amended: for `x` in `0..15` and a 16-bit address register `base`,
`_dump_register` stores `V[i]` at address `(base + i) mod 65536` for each `i`
in `0..x`, touches no other cell and no register; `_load_register` loads `V[i]`
with the byte at `(base + i) mod 65536` for each `i` in `0..x` and leaves the
registers above `x`; both leave the address register at
`(base + x + 1) mod 65536`, which is `base + x + 1` when that fits 16 bits. -/
theorem dump_load_bookkeeping (s : Chip8 D) (address register_x register_y value : Nat)
    (hx : register_x ≤ 15) (hbase : s.address_register < 65536)
    (hbytes : ∀ i, i ≤ register_x → s.registers i < 256) :
    (∀ i, i ≤ register_x →
        (_dump_register s address register_x register_y value).memory.fetch
          ((s.address_register + i) % 65536) = s.registers i)
      ∧ (∀ a, (∀ i, i ≤ register_x → a ≠ (s.address_register + i) % 65536) →
          (_dump_register s address register_x register_y value).memory.fetch a
            = s.memory.fetch a)
      ∧ (_dump_register s address register_x register_y value).registers = s.registers
      ∧ (_dump_register s address register_x register_y value).address_register
          = (s.address_register + register_x + 1) % 65536
      ∧ (∀ i, i ≤ register_x →
          (_load_register s address register_x register_y value).registers i
            = s.memory.fetch ((s.address_register + i) % 65536))
      ∧ (∀ j, register_x < j →
          (_load_register s address register_x register_y value).registers j = s.registers j)
      ∧ (_load_register s address register_x register_y value).address_register
          = (s.address_register + register_x + 1) % 65536
      ∧ (s.address_register + register_x + 1 < 65536 →
          (_dump_register s address register_x register_y value).address_register
              = s.address_register + register_x + 1
            ∧ (_load_register s address register_x register_y value).address_register
              = s.address_register + register_x + 1) := by
  obtain ⟨d1, d2, d3⟩ :=
    dump_loop_spec s.registers (register_x + 1) 0 s.memory s.address_register (by omega) hbase
  obtain ⟨l1, l2, l3⟩ :=
    load_loop_spec s.memory (register_x + 1) 0 s.registers s.address_register hbase
  have hd : (_dump_register s address register_x register_y value).address_register
      = (s.address_register + register_x + 1) % 65536 := by
    show (dump_loop s.registers 0 (register_x + 1) s.memory s.address_register).2 = _
    rw [d3, Nat.add_assoc]
  have hl : (_load_register s address register_x register_y value).address_register
      = (s.address_register + register_x + 1) % 65536 := by
    show (load_loop s.memory 0 (register_x + 1) s.registers s.address_register).2 = _
    rw [l3, Nat.add_assoc]
  refine ⟨?_, ?_, rfl, hd, ?_, ?_, hl, ?_⟩
  · intro i hi
    show (dump_loop s.registers 0 (register_x + 1) s.memory s.address_register).1.cells
      ((s.address_register + i) % 65536) % 256 = s.registers i
    rw [d1 i (by omega), Nat.zero_add, Nat.mod_mod]
    exact Nat.mod_eq_of_lt (hbytes i hi)
  · intro a ha
    show (dump_loop s.registers 0 (register_x + 1) s.memory s.address_register).1.cells a % 256
      = s.memory.cells a % 256
    rw [d2 a (fun k hk => ha k (by omega))]
  · intro i hi
    have := l1 i (by omega)
    rw [Nat.zero_add] at this
    exact this
  · intro j hj
    exact l2 j (Or.inr (by omega))
  · intro hfit
    rw [hd, hl]
    exact ⟨Nat.mod_eq_of_lt hfit, Nat.mod_eq_of_lt hfit⟩

/-- C14, amended, on `wrap_machine` with `x = 1`: the two bytes go to `0xFFFF`
and `0`, and the address register ends at `1`. -/
theorem dump_load_bookkeeping_witness :
    (_dump_register wrap_machine 0x155 0x1 0x5 0x55).memory.fetch ((0xFFFF + 0) % 65536)
        = wrap_machine.registers 0
      ∧ (_dump_register wrap_machine 0x155 0x1 0x5 0x55).memory.fetch ((0xFFFF + 1) % 65536)
        = wrap_machine.registers 1
      ∧ (_dump_register wrap_machine 0x155 0x1 0x5 0x55).address_register
        = (0xFFFF + 1 + 1) % 65536 :=
  ⟨(dump_load_bookkeeping wrap_machine 0x155 0x1 0x5 0x55 (by decide) (by decide)
      (fun i _ => by show i + 1 < 256; omega)).1 0 (by decide),
   (dump_load_bookkeeping wrap_machine 0x155 0x1 0x5 0x55 (by decide) (by decide)
      (fun i _ => by show i + 1 < 256; omega)).1 1 (by decide),
   (dump_load_bookkeeping wrap_machine 0x155 0x1 0x5 0x55 (by decide) (by decide)
      (fun i _ => by show i + 1 < 256; omega)).2.2.2.1⟩

/-- C13: when the bytes `base .. base + x` lie in the 4096 bytes of memory,
dumping registers `0..x` at `base`, zeroing them, setting the address register
back to `base` and loading gives registers `0..x` their values from before
the dump. -/
theorem dump_load_round_trip (s : Chip8 D)
    (address register_x register_y value address' register_y' value' : Nat)
    (hmem : s.address_register + register_x < 4096)
    (hbytes : ∀ i, i ≤ register_x → s.registers i < 256) :
    ∀ i, i ≤ register_x →
      (_load_register
          (zero_and_rewind (_dump_register s address register_x register_y value)
            register_x s.address_register)
          address' register_x register_y' value').registers i
        = s.registers i := by
  intro i hi
  obtain ⟨d1, _, _⟩ :=
    dump_loop_spec s.registers (register_x + 1) 0 s.memory s.address_register
      (by omega) (by omega)
  obtain ⟨l1, _, _⟩ :=
    load_loop_spec (dump_loop s.registers 0 (register_x + 1) s.memory s.address_register).1
      (register_x + 1) 0
      (fun j => if j ≤ register_x then 0 else s.registers j) s.address_register (by omega)
  have h1 := l1 i (by omega)
  have h2 := d1 i (by omega)
  rw [Nat.zero_add] at h1 h2
  show (load_loop (dump_loop s.registers 0 (register_x + 1) s.memory s.address_register).1
      0 (register_x + 1) (fun j => if j ≤ register_x then 0 else s.registers j)
      s.address_register).1 i = s.registers i
  rw [h1]
  show (dump_loop s.registers 0 (register_x + 1) s.memory s.address_register).1.cells
      ((s.address_register + i) % 65536) % 256 = s.registers i
  rw [h2, Nat.mod_mod]
  exact Nat.mod_eq_of_lt (hbytes i hi)

/-- C13 on `busy_machine` (`V[i] = i + 1`, address register `0x345`) with
`x = 15`: the registers `0`, `7` and `15` come back. -/
theorem dump_load_round_trip_witness :
    (_load_register
        (zero_and_rewind (_dump_register busy_machine 0xF55 0xF 0x5 0x55)
          0xF busy_machine.address_register)
        0xF65 0xF 0x6 0x65).registers 0x0 = busy_machine.registers 0x0
      ∧ (_load_register
        (zero_and_rewind (_dump_register busy_machine 0xF55 0xF 0x5 0x55)
          0xF busy_machine.address_register)
        0xF65 0xF 0x6 0x65).registers 0x7 = busy_machine.registers 0x7
      ∧ (_load_register
        (zero_and_rewind (_dump_register busy_machine 0xF55 0xF 0x5 0x55)
          0xF busy_machine.address_register)
        0xF65 0xF 0x6 0x65).registers 0xF = busy_machine.registers 0xF :=
  ⟨dump_load_round_trip busy_machine 0xF55 0xF 0x5 0x55 0xF65 0x6 0x65 (by decide)
      (fun i _ => by show i + 1 < 256; omega) 0x0 (by decide),
   dump_load_round_trip busy_machine 0xF55 0xF 0x5 0x55 0xF65 0x6 0x65 (by decide)
      (fun i _ => by show i + 1 < 256; omega) 0x7 (by decide),
   dump_load_round_trip busy_machine 0xF55 0xF 0x5 0x55 0xF65 0x6 0x65 (by decide)
      (fun i _ => by show i + 1 < 256; omega) 0xF (by decide)⟩

/-! ### Draw sprite (Dxyn) -/

/-- The loop of `_draw` draws the rows `i, ..., i + count - 1` in turn and
accumulates their collision results. -/
theorem draw_loop_rows (dev : Devices D) (memory : Memory) (address_register x y : Nat)
    (count : Nat) :
    ∀ i display collision,
      draw_loop dev memory address_register x y i count display collision
        = ((spec_draw_rows dev
              ((List.range' i count).map
                (fun k => (x, y + k, memory.fetch (address_register + k)))) display).1,
           (spec_draw_rows dev
              ((List.range' i count).map
                (fun k => (x, y + k, memory.fetch (address_register + k)))) display).2.any id
            || collision) := by
  induction count with
  | zero =>
    intro i display collision
    simp [draw_loop, spec_draw_rows]
  | succ n ih =>
    intro i display collision
    rw [List.range'_succ]
    simp only [draw_loop, List.map_cons, spec_draw_rows, List.any_cons, id]
    rw [ih]
    congr 1
    cases (dev.write_line display x (y + i) (memory.fetch (address_register + i))).2 <;>
      cases collision <;> simp

/-- The results of drawing a list of rows are as many as the rows. -/
theorem spec_draw_rows_length (dev : Devices D) (rows : List (Nat × Nat × Nat)) :
    ∀ display, (spec_draw_rows dev rows display).2.length = rows.length := by
  induction rows with
  | nil => intro display; rfl
  | cons row rest ih =>
    intro display
    simp only [spec_draw_rows, List.length_cons, ih]

/-- C19: `_draw` draws the `n = value AND 0x0F` rows of the specification, row
`i` being the byte at `address_register + i` at `(V[x], V[y] + i)`, in
increasing order and each of them whatever the earlier rows reported; register
`0xF` ends as `1` if one of the `n` rows reported a collision and as `0`
otherwise; the other registers, the address register and the memory are
unchanged. -/
theorem draw_rows_and_flag (dev : Devices D) (s : Chip8 D)
    (address register_x register_y value : Nat) :
    (spec_sprite_rows s register_x register_y value).length = value &&& 0x0F
      ∧ (∀ i, i < value &&& 0x0F →
          (spec_sprite_rows s register_x register_y value)[i]?
            = some (s.registers register_x, s.registers register_y + i,
                    s.memory.fetch (s.address_register + i)))
      ∧ (_draw dev s address register_x register_y value).display
          = (spec_draw_rows dev (spec_sprite_rows s register_x register_y value) s.display).1
      ∧ (spec_draw_rows dev (spec_sprite_rows s register_x register_y value) s.display).2.length
          = value &&& 0x0F
      ∧ (_draw dev s address register_x register_y value).registers 0x0F
          = (if true ∈ (spec_draw_rows dev (spec_sprite_rows s register_x register_y value)
                          s.display).2
             then 1 else 0)
      ∧ (∀ r, r ≠ 0x0F →
          (_draw dev s address register_x register_y value).registers r = s.registers r)
      ∧ (_draw dev s address register_x register_y value).address_register = s.address_register
      ∧ (_draw dev s address register_x register_y value).memory = s.memory := by
  have hlen : (spec_sprite_rows s register_x register_y value).length = value &&& 0x0F := by
    simp only [spec_sprite_rows, List.length_map, List.length_range]
  have hloop := draw_loop_rows dev s.memory s.address_register (s.registers register_x)
    (s.registers register_y) (value &&& 0x0F) 0 s.display false
  rw [← List.range_eq_range'] at hloop
  refine ⟨hlen, ?_, ?_, ?_, ?_, ?_, rfl, rfl⟩
  · intro i hi
    simp only [spec_sprite_rows, List.getElem?_map, List.getElem?_range hi, Option.map_some']
  · simp only [_draw, hloop, spec_sprite_rows]
  · rw [spec_draw_rows_length, hlen]
  · simp only [_draw, hloop, spec_sprite_rows, Bool.or_false]
    by_cases hany : (spec_draw_rows dev
        ((List.range (value &&& 0x0F)).map
          (fun k => (s.registers register_x, s.registers register_y + k,
                     s.memory.fetch (s.address_register + k)))) s.display).2.any id = true
    · have hmem := hany
      rw [List.any_eq_true] at hmem
      obtain ⟨b, hb1, hb2⟩ := hmem
      have hb : b = true := hb2
      rw [hb] at hb1
      simp only [hany, if_true, hb1, write_at_same]
    · have hmem : ¬ (true ∈ (spec_draw_rows dev
          ((List.range (value &&& 0x0F)).map
            (fun k => (s.registers register_x, s.registers register_y + k,
                       s.memory.fetch (s.address_register + k)))) s.display).2) := by
        intro hin
        exact hany (List.any_eq_true.mpr ⟨true, hin, rfl⟩)
      simp only [hany, hmem, if_false, write_at_same]
      rfl
  · intro r hr
    simp only [_draw]
    split <;> exact write_at_other _ _ _ _ hr

/-- C19 on `recording_machine`: the three rows reach the display in order,
the first of them reports a collision, and register `0xF` ends as `1`. -/
theorem draw_rows_and_flag_witness :
    (_draw recording_devices recording_machine 0x123 0x1 0x2 0x23).display
        = [(4, 0, 0xF0), (4, 1, 0x90), (4, 2, 0xF0)]
      ∧ (_draw recording_devices recording_machine 0x123 0x1 0x2 0x23).registers 0x0F = 1 :=
  ⟨(draw_rows_and_flag recording_devices recording_machine 0x123 0x1 0x2 0x23).2.2.1.trans
      (by decide),
   (draw_rows_and_flag recording_devices recording_machine 0x123 0x1 0x2 0x23).2.2.2.2.1.trans
      (by decide)⟩

/-! ### Drawing twice on the display of the specification -/

/-- One row drawn on the display of the specification reports a collision
exactly when one of its set bits meets a set pixel. -/
theorem write_line_collision (d : Display) (x y line : Nat) :
    (d.write_line x y line).2 = true
      ↔ ∃ j, j < 8 ∧ d.pixels (x + j) y = true ∧ line.testBit (7 - j) = true := by
  simp only [Display.write_line, List.any_eq_true, List.mem_range, Bool.and_eq_true]

/-- The loop of `_draw` on the display of the specification: the pixels of the
rows `y + i, ..., y + i + count - 1` in the columns `x, ..., x + 7` are changed
by exclusive or with the bits of the sprite, the others are kept; a collision
is reported when it was already, or when a set bit of the sprite meets a pixel
that was set before the loop. -/
theorem xor_draw_loop (glyphs : Nat → Nat) (memory : Memory) (address_register x y : Nat)
    (count : Nat) :
    ∀ i display collision,
      (∀ px py,
          (draw_loop (xor_devices glyphs) memory address_register x y i count
              display collision).1.pixels px py
            = if y + i ≤ py ∧ py < y + i + count ∧ x ≤ px ∧ px < x + 8
              then xor (display.pixels px py)
                ((memory.fetch (address_register + (py - y))).testBit (7 - (px - x)))
              else display.pixels px py)
        ∧ ((draw_loop (xor_devices glyphs) memory address_register x y i count
              display collision).2 = true
            ↔ collision = true
              ∨ ∃ k, k < count ∧ ∃ j, j < 8 ∧ display.pixels (x + j) (y + i + k) = true
                  ∧ (memory.fetch (address_register + (i + k))).testBit (7 - j) = true) := by
  induction count with
  | zero =>
    intro i display collision
    refine ⟨?_, ?_⟩
    · intro px py
      have hno : ¬ (y + i ≤ py ∧ py < y + i + 0 ∧ x ≤ px ∧ px < x + 8) := by omega
      rw [if_neg hno]
      rfl
    · show collision = true ↔ _
      constructor
      · intro h
        exact Or.inl h
      · rintro (h | ⟨k, hk, _⟩)
        · exact h
        · omega
  | succ n ih =>
    intro i display collision
    have hstep : draw_loop (xor_devices glyphs) memory address_register x y i (n + 1)
          display collision
        = draw_loop (xor_devices glyphs) memory address_register x y (i + 1) n
            (display.write_line x (y + i) (memory.fetch (address_register + i))).1
            ((display.write_line x (y + i) (memory.fetch (address_register + i))).2
              || collision) := rfl
    have hd1 : ∀ px py,
        (display.write_line x (y + i) (memory.fetch (address_register + i))).1.pixels px py
          = if py = y + i ∧ x ≤ px ∧ px < x + 8
            then xor (display.pixels px py)
              ((memory.fetch (address_register + i)).testBit (7 - (px - x)))
            else display.pixels px py := fun _ _ => rfl
    obtain ⟨ih1, ih2⟩ := ih (i + 1)
      (display.write_line x (y + i) (memory.fetch (address_register + i))).1
      ((display.write_line x (y + i) (memory.fetch (address_register + i))).2 || collision)
    rw [hstep]
    refine ⟨?_, ?_⟩
    · intro px py
      rw [ih1 px py, hd1 px py]
      by_cases hrow : py = y + i
      · have hsub : py - y = i := by omega
        by_cases hcol : x ≤ px ∧ px < x + 8
        · have c1 : ¬ (y + (i + 1) ≤ py ∧ py < y + (i + 1) + n ∧ x ≤ px ∧ px < x + 8) := by
            omega
          have c2 : py = y + i ∧ x ≤ px ∧ px < x + 8 := ⟨hrow, hcol⟩
          have c3 : y + i ≤ py ∧ py < y + i + (n + 1) ∧ x ≤ px ∧ px < x + 8 := by omega
          rw [if_neg c1, if_pos c2, if_pos c3, hsub]
        · have c1 : ¬ (y + (i + 1) ≤ py ∧ py < y + (i + 1) + n ∧ x ≤ px ∧ px < x + 8) := by
            omega
          have c2 : ¬ (py = y + i ∧ x ≤ px ∧ px < x + 8) := by omega
          have c3 : ¬ (y + i ≤ py ∧ py < y + i + (n + 1) ∧ x ≤ px ∧ px < x + 8) := by omega
          rw [if_neg c1, if_neg c2, if_neg c3]
      · have c2 : ¬ (py = y + i ∧ x ≤ px ∧ px < x + 8) := by omega
        rw [if_neg c2]
        by_cases hin : y + (i + 1) ≤ py ∧ py < y + (i + 1) + n ∧ x ≤ px ∧ px < x + 8
        · have c3 : y + i ≤ py ∧ py < y + i + (n + 1) ∧ x ≤ px ∧ px < x + 8 := by omega
          rw [if_pos hin, if_pos c3]
        · have c3 : ¬ (y + i ≤ py ∧ py < y + i + (n + 1) ∧ x ≤ px ∧ px < x + 8) := by omega
          rw [if_neg hin, if_neg c3]
    · rw [ih2, Bool.or_eq_true, write_line_collision]
      constructor
      · rintro ((⟨j, hj, hp, hb⟩ | hc) | ⟨k, hk, j, hj, hp, hb⟩)
        · exact Or.inr ⟨0, by omega, j, hj, hp, hb⟩
        · exact Or.inl hc
        · refine Or.inr ⟨k + 1, by omega, j, hj, ?_, ?_⟩
          · rw [hd1] at hp
            have c2 : ¬ (y + (i + 1) + k = y + i ∧ x ≤ x + j ∧ x + j < x + 8) := by omega
            rw [if_neg c2] at hp
            have e : y + i + (k + 1) = y + (i + 1) + k := by omega
            rw [e]
            exact hp
          · have e : i + (k + 1) = i + 1 + k := by omega
            rw [e]
            exact hb
      · rintro (hc | ⟨k, hk, j, hj, hp, hb⟩)
        · exact Or.inl (Or.inr hc)
        · cases k with
          | zero => exact Or.inl (Or.inl ⟨j, hj, hp, hb⟩)
          | succ m =>
            refine Or.inr ⟨m, by omega, j, hj, ?_, ?_⟩
            · rw [hd1]
              have c2 : ¬ (y + (i + 1) + m = y + i ∧ x ≤ x + j ∧ x + j < x + 8) := by omega
              rw [if_neg c2]
              have e : y + (i + 1) + m = y + i + (m + 1) := by omega
              rw [e]
              exact hp
            · have e : i + 1 + m = i + (m + 1) := by omega
              rw [e]
              exact hb

/-- A byte other than `0` has a set bit among its eight bits. -/
theorem byte_has_set_bit (b : Nat) (hb : b < 256) (hne : b ≠ 0) :
    ∃ j, j < 8 ∧ b.testBit (7 - j) = true := by
  obtain ⟨i, hi⟩ := Nat.ne_zero_implies_bit_true hne
  have hge : b ≥ 2 ^ i := Nat.testBit_implies_ge hi
  have hi8 : i < 8 := by
    by_contra hcon
    have h8 : 8 ≤ i := by omega
    have : 2 ^ 8 ≤ 2 ^ i := Nat.pow_le_pow_right (by decide) h8
    omega
  refine ⟨7 - i, by omega, ?_⟩
  have e : 7 - (7 - i) = i := by omega
  rw [e]
  exact hi

/-- C20: on the display of the specification with every pixel unset, drawing
a sprite leaves register `0xF` at `0`; drawing it again at once at the same
position (the coordinate registers are not register `0xF`, which the first draw
writes, or hold `0`) leaves register `0xF` at `1` when one of the sprite's
bytes is not `0` (and at `0` when all are), and every pixel unset. -/
theorem draw_twice (glyphs : Nat → Nat) (s : Chip8 Display)
    (address register_x register_y value : Nat)
    (hx : register_x ≠ 0x0F ∨ s.registers register_x = 0)
    (hy : register_y ≠ 0x0F ∨ s.registers register_y = 0)
    (hclear : ∀ px py, s.display.pixels px py = false) :
    (_draw (xor_devices glyphs) s address register_x register_y value).registers 0x0F = 0
      ∧ ((∃ i, i < value &&& 0x0F ∧ s.memory.fetch (s.address_register + i) ≠ 0) →
          (_draw (xor_devices glyphs)
              (_draw (xor_devices glyphs) s address register_x register_y value)
              address register_x register_y value).registers 0x0F = 1)
      ∧ ((∀ i, i < value &&& 0x0F → s.memory.fetch (s.address_register + i) = 0) →
          (_draw (xor_devices glyphs)
              (_draw (xor_devices glyphs) s address register_x register_y value)
              address register_x register_y value).registers 0x0F = 0)
      ∧ ∀ px py,
          (_draw (xor_devices glyphs)
              (_draw (xor_devices glyphs) s address register_x register_y value)
              address register_x register_y value).display.pixels px py = false := by
  obtain ⟨p1, q1⟩ := xor_draw_loop glyphs s.memory s.address_register
    (s.registers register_x) (s.registers register_y) (value &&& 0x0F) 0 s.display false
  have hno : (draw_loop (xor_devices glyphs) s.memory s.address_register
      (s.registers register_x) (s.registers register_y) 0 (value &&& 0x0F)
      s.display false).2 = false := by
    cases hc : (draw_loop (xor_devices glyphs) s.memory s.address_register
      (s.registers register_x) (s.registers register_y) 0 (value &&& 0x0F)
      s.display false).2 with
    | false => rfl
    | true =>
      rcases q1.mp hc with h | ⟨k, _, j, _, hp, _⟩
      · exact absurd h (by decide)
      · rw [hclear] at hp
        exact absurd hp (by decide)
  have hfirst : _draw (xor_devices glyphs) s address register_x register_y value
      = { s with display := (draw_loop (xor_devices glyphs) s.memory s.address_register
                    (s.registers register_x) (s.registers register_y) 0 (value &&& 0x0F)
                    s.display false).1,
                 registers := write_at s.registers 0x0F 0x00 } := by
    simp only [_draw, hno, Bool.false_eq_true, if_false]
  have hsame : ∀ r, r ≠ 0x0F ∨ s.registers r = 0 →
      write_at s.registers 0x0F 0x00 r = s.registers r := by
    intro r hr
    by_cases h15 : r = 0x0F
    · rcases hr with h | h
      · exact absurd h15 h
      · rw [h, h15]
        exact write_at_same _ _ _
    · exact write_at_other _ _ _ _ h15
  have hrx := hsame register_x hx
  have hry := hsame register_y hy
  obtain ⟨p2, q2⟩ := xor_draw_loop glyphs s.memory s.address_register
    (s.registers register_x) (s.registers register_y) (value &&& 0x0F) 0
    (draw_loop (xor_devices glyphs) s.memory s.address_register
      (s.registers register_x) (s.registers register_y) 0 (value &&& 0x0F)
      s.display false).1 false
  have hsecond : _draw (xor_devices glyphs)
        (_draw (xor_devices glyphs) s address register_x register_y value)
        address register_x register_y value
      = { s with
            display := (draw_loop (xor_devices glyphs) s.memory s.address_register
              (s.registers register_x) (s.registers register_y) 0 (value &&& 0x0F)
              (draw_loop (xor_devices glyphs) s.memory s.address_register
                (s.registers register_x) (s.registers register_y) 0 (value &&& 0x0F)
                s.display false).1 false).1,
            registers :=
              if (draw_loop (xor_devices glyphs) s.memory s.address_register
                  (s.registers register_x) (s.registers register_y) 0 (value &&& 0x0F)
                  (draw_loop (xor_devices glyphs) s.memory s.address_register
                    (s.registers register_x) (s.registers register_y) 0 (value &&& 0x0F)
                    s.display false).1 false).2 = true
              then write_at (write_at s.registers 0x0F 0x00) 0x0F 0x01
              else write_at (write_at s.registers 0x0F 0x00) 0x0F 0x00 } := by
    rw [hfirst]
    simp only [_draw, hrx, hry]
  refine ⟨?_, ?_, ?_, ?_⟩
  · rw [hfirst]
    show write_at s.registers 0x0F 0x00 0x0F = 0
    exact write_at_same _ _ _
  · rintro ⟨i, hi, hne⟩
    obtain ⟨j, hj, hbit⟩ := byte_has_set_bit _ (Nat.mod_lt _ (by decide)) hne
    have hcol : (draw_loop (xor_devices glyphs) s.memory s.address_register
        (s.registers register_x) (s.registers register_y) 0 (value &&& 0x0F)
        (draw_loop (xor_devices glyphs) s.memory s.address_register
          (s.registers register_x) (s.registers register_y) 0 (value &&& 0x0F)
          s.display false).1 false).2 = true := by
      apply q2.mpr
      refine Or.inr ⟨i, hi, j, hj, ?_, ?_⟩
      · rw [p1]
        have c : s.registers register_y + 0 ≤ s.registers register_y + 0 + i
            ∧ s.registers register_y + 0 + i < s.registers register_y + 0 + (value &&& 0x0F)
            ∧ s.registers register_x ≤ s.registers register_x + j
            ∧ s.registers register_x + j < s.registers register_x + 8 := by omega
        rw [if_pos c, hclear]
        have e1 : s.registers register_y + 0 + i - s.registers register_y = i := by omega
        have e2 : s.registers register_x + j - s.registers register_x = j := by omega
        rw [e1, e2, Bool.false_xor]
        exact hbit
      · rw [Nat.zero_add]
        exact hbit
    rw [hsecond]
    simp only [hcol, if_true, write_at_same]
  · intro hzero
    have hcol : ¬ ((draw_loop (xor_devices glyphs) s.memory s.address_register
        (s.registers register_x) (s.registers register_y) 0 (value &&& 0x0F)
        (draw_loop (xor_devices glyphs) s.memory s.address_register
          (s.registers register_x) (s.registers register_y) 0 (value &&& 0x0F)
          s.display false).1 false).2 = true) := by
      intro hc
      rcases q2.mp hc with h | ⟨k, hk, j, _, _, hb⟩
      · exact absurd h (by decide)
      · rw [Nat.zero_add, hzero k hk, Nat.zero_testBit] at hb
        exact absurd hb (by decide)
    rw [hsecond]
    show (if _ then write_at (write_at s.registers 0x0F 0x00) 0x0F 0x01
      else write_at (write_at s.registers 0x0F 0x00) 0x0F 0x00) 0x0F = 0
    rw [if_neg hcol]
    exact write_at_same _ _ _
  · intro px py
    rw [hsecond]
    show (draw_loop (xor_devices glyphs) s.memory s.address_register
        (s.registers register_x) (s.registers register_y) 0 (value &&& 0x0F)
        (draw_loop (xor_devices glyphs) s.memory s.address_register
          (s.registers register_x) (s.registers register_y) 0 (value &&& 0x0F)
          s.display false).1 false).1.pixels px py = false
    rw [p2, p1, hclear]
    split
    · simp
    · rfl

/-- C20 on `sprite_machine`: the row `0xFF` drawn twice at `(0, 0)` on a
cleared display. -/
theorem draw_twice_witness :
    (_draw (xor_devices (fun digit => 5 * digit)) sprite_machine 0x011 0x0 0x1 0x11).registers
        0x0F = 0
      ∧ (_draw (xor_devices (fun digit => 5 * digit))
          (_draw (xor_devices (fun digit => 5 * digit)) sprite_machine 0x011 0x0 0x1 0x11)
          0x011 0x0 0x1 0x11).registers 0x0F = 1
      ∧ ∀ px py,
          (_draw (xor_devices (fun digit => 5 * digit))
            (_draw (xor_devices (fun digit => 5 * digit)) sprite_machine 0x011 0x0 0x1 0x11)
            0x011 0x0 0x1 0x11).display.pixels px py = false :=
  ⟨(draw_twice (fun digit => 5 * digit) sprite_machine 0x011 0x0 0x1 0x11
      (Or.inl (by decide)) (Or.inl (by decide)) (fun _ _ => rfl)).1,
   (draw_twice (fun digit => 5 * digit) sprite_machine 0x011 0x0 0x1 0x11
      (Or.inl (by decide)) (Or.inl (by decide)) (fun _ _ => rfl)).2.1 ⟨0, by decide, by decide⟩,
   (draw_twice (fun digit => 5 * digit) sprite_machine 0x011 0x0 0x1 0x11
      (Or.inl (by decide)) (Or.inl (by decide)) (fun _ _ => rfl)).2.2.2⟩

/-! ### Add register to address register (Fx1E) -/

/-- C21: `_add_address_register` leaves `(old address_register + V[x]) mod 65536`
in the address register; when that value is above `0x0FFF` register `0xF`
becomes `1` and the other registers are kept; when it is not, every register,
register `0xF` included, is kept. -/
theorem add_address_register_spec (s : Chip8 D) (address register_x register_y value : Nat) :
    (_add_address_register s address register_x register_y value).address_register
        = (s.address_register + s.registers register_x) % 65536
      ∧ ((s.address_register + s.registers register_x) % 65536 > 0x0FFF →
          (_add_address_register s address register_x register_y value).registers 0x0F = 1
            ∧ ∀ r, r ≠ 0x0F →
                (_add_address_register s address register_x register_y value).registers r
                  = s.registers r)
      ∧ (¬ ((s.address_register + s.registers register_x) % 65536 > 0x0FFF) →
          (_add_address_register s address register_x register_y value).registers
            = s.registers) := by
  refine ⟨rfl, ?_, ?_⟩
  · intro h
    simp only [_add_address_register, h, if_true]
    exact ⟨write_at_same _ _ _, fun r hr => write_at_other _ _ _ _ hr⟩
  · intro h
    simp only [_add_address_register, h, if_false]

/-- C21 on `address_machine`: `0x0FF0 + 0x20 = 0x1010` sets register `0xF`,
`0x0FF0 + 0x05 = 0x0FF5` keeps the registers. -/
theorem add_address_register_spec_witness :
    (_add_address_register address_machine 0x01E 0x0 0x1 0x1E).address_register = 0x1010
      ∧ (_add_address_register address_machine 0x01E 0x0 0x1 0x1E).registers 0x0F = 1
      ∧ (_add_address_register address_machine 0x11E 0x1 0x1 0x1E).registers
          = address_machine.registers :=
  ⟨(add_address_register_spec address_machine 0x01E 0x0 0x1 0x1E).1,
   ((add_address_register_spec address_machine 0x01E 0x0 0x1 0x1E).2.1 (by decide)).1,
   (add_address_register_spec address_machine 0x11E 0x1 0x1 0x1E).2.2 (by decide)⟩

/-! ### Shifts (8xy6, 8xyE) -/

theorem shift_right_byte (v : Nat) (h : v < 256) : ((v >>> 1) &&& 0x7F) % 256 = v / 2 := by
  have e : v >>> 1 = v / 2 := by
    rw [Nat.shiftRight_eq_div_pow]
  have m : (v / 2) &&& 0x7F = (v / 2) % 128 := Nat.and_pow_two_sub_one_eq_mod (v / 2) 7
  rw [e, m]
  omega

set_option maxRecDepth 100000 in
theorem shift_left_byte : ∀ v, v < 256 → ((v <<< 1) &&& 0xFE) % 256 = (2 * v) % 256 := by
  decide

set_option maxRecDepth 100000 in
theorem top_bit_byte : ∀ v, v < 256 → ((v &&& 0x80) ≠ 0x00 ↔ 128 ≤ v) := by
  decide

/-- C22: for `x` other than `0xF` and a byte in `V[x]`, after `_shift_right`
register `0xF` holds bit 0 of old `V[x]` and `V[x]` holds `old V[x] div 2`, a
value below `128`; no other register changes; the result is the same for every
`y` (and every address and value argument), and its `V[x]` and flag are the same
from every state with the same `V[x]`, whatever its other registers hold. -/
theorem shift_right_spec (s : Chip8 D) (address register_x register_y value : Nat)
    (hx : register_x ≠ 0x0F) (hv : s.registers register_x < 256) :
    (_shift_right s address register_x register_y value).registers 0x0F
        = s.registers register_x % 2
      ∧ (_shift_right s address register_x register_y value).registers register_x
        = s.registers register_x / 2
      ∧ (_shift_right s address register_x register_y value).registers register_x < 128
      ∧ (∀ r, r ≠ register_x → r ≠ 0x0F →
          (_shift_right s address register_x register_y value).registers r = s.registers r)
      ∧ (∀ address' register_y' value',
          _shift_right s address' register_x register_y' value'
            = _shift_right s address register_x register_y value)
      ∧ (∀ t : Chip8 D, t.registers register_x = s.registers register_x →
          (_shift_right t address register_x register_y value).registers register_x
              = (_shift_right s address register_x register_y value).registers register_x
            ∧ (_shift_right t address register_x register_y value).registers 0x0F
              = (_shift_right s address register_x register_y value).registers 0x0F) := by
  have hflag : ∀ t : Chip8 D,
      (_shift_right t address register_x register_y value).registers 0x0F
        = t.registers register_x % 2 := by
    intro t
    simp only [_shift_right, Nat.and_one_is_mod]
    rw [write_at_other _ _ _ _ (Ne.symm hx)]
    split
    · rw [write_at_same]
      omega
    · rw [write_at_same]
      omega
  have hres : ∀ t : Chip8 D, t.registers register_x < 256 →
      (_shift_right t address register_x register_y value).registers register_x
        = t.registers register_x / 2 := by
    intro t ht
    simp only [_shift_right]
    rw [write_at_same]
    split
    · rw [write_at_other _ _ _ _ hx]
      exact shift_right_byte _ ht
    · rw [write_at_other _ _ _ _ hx]
      exact shift_right_byte _ ht
  refine ⟨hflag s, hres s hv, ?_, ?_, fun _ _ _ => rfl, ?_⟩
  · rw [hres s hv]
    omega
  · intro r hrx hrf
    simp only [_shift_right]
    rw [write_at_other _ _ _ _ hrx]
    split <;> exact write_at_other _ _ _ _ hrf
  · intro t ht
    rw [hres t (by rw [ht]; exact hv), hres s hv, hflag t, hflag s, ht]
    exact ⟨rfl, rfl⟩

/-- C22 on `V0 = 0x85`: the flag becomes `1` and `V0` becomes `0x42`. -/
theorem shift_right_spec_witness :
    (_shift_right (with_v0_vf 0x85 0x00) 0x016 0x0 0x1 0x16).registers 0x0F = 0x85 % 2
      ∧ (_shift_right (with_v0_vf 0x85 0x00) 0x016 0x0 0x1 0x16).registers 0x0 = 0x85 / 2 :=
  ⟨(shift_right_spec (with_v0_vf 0x85 0x00) 0x016 0x0 0x1 0x16 (by decide) (by decide)).1,
   (shift_right_spec (with_v0_vf 0x85 0x00) 0x016 0x0 0x1 0x16 (by decide) (by decide)).2.1⟩

/-- C23: for `x` other than `0xF` and a byte in `V[x]`, after `_shift_left`
register `0xF` holds bit 7 of old `V[x]` (as `0` or `1`) and `V[x]` holds
`(2 * old V[x]) mod 256`, an even value; no other register changes; the result
is the same for every `y` (and every address and value argument), and its
`V[x]` and flag are the same from every state with the same `V[x]`, whatever
its other registers hold. -/
theorem shift_left_spec (s : Chip8 D) (address register_x register_y value : Nat)
    (hx : register_x ≠ 0x0F) (hv : s.registers register_x < 256) :
    (_shift_left s address register_x register_y value).registers 0x0F
        = s.registers register_x / 128
      ∧ (_shift_left s address register_x register_y value).registers register_x
        = (2 * s.registers register_x) % 256
      ∧ (_shift_left s address register_x register_y value).registers register_x % 2 = 0
      ∧ (∀ r, r ≠ register_x → r ≠ 0x0F →
          (_shift_left s address register_x register_y value).registers r = s.registers r)
      ∧ (∀ address' register_y' value',
          _shift_left s address' register_x register_y' value'
            = _shift_left s address register_x register_y value)
      ∧ (∀ t : Chip8 D, t.registers register_x = s.registers register_x →
          (_shift_left t address register_x register_y value).registers register_x
              = (_shift_left s address register_x register_y value).registers register_x
            ∧ (_shift_left t address register_x register_y value).registers 0x0F
              = (_shift_left s address register_x register_y value).registers 0x0F) := by
  have hflag : ∀ t : Chip8 D, t.registers register_x < 256 →
      (_shift_left t address register_x register_y value).registers 0x0F
        = t.registers register_x / 128 := by
    intro t ht
    have hb := top_bit_byte _ ht
    simp only [_shift_left]
    rw [write_at_other _ _ _ _ (Ne.symm hx)]
    split
    · rename_i h
      rw [write_at_same]
      have := hb.mp h
      omega
    · rename_i h
      rw [write_at_same]
      have : ¬ 128 ≤ t.registers register_x := fun h128 => h (hb.mpr h128)
      omega
  have hres : ∀ t : Chip8 D, t.registers register_x < 256 →
      (_shift_left t address register_x register_y value).registers register_x
        = (2 * t.registers register_x) % 256 := by
    intro t ht
    simp only [_shift_left]
    rw [write_at_same]
    split
    · rw [write_at_other _ _ _ _ hx]
      exact shift_left_byte _ ht
    · rw [write_at_other _ _ _ _ hx]
      exact shift_left_byte _ ht
  refine ⟨hflag s hv, hres s hv, ?_, ?_, fun _ _ _ => rfl, ?_⟩
  · rw [hres s hv]
    omega
  · intro r hrx hrf
    simp only [_shift_left]
    rw [write_at_other _ _ _ _ hrx]
    split <;> exact write_at_other _ _ _ _ hrf
  · intro t ht
    have ht' : t.registers register_x < 256 := by rw [ht]; exact hv
    rw [hres t ht', hres s hv, hflag t ht', hflag s hv, ht]
    exact ⟨rfl, rfl⟩

/-- C23 on `V0 = 0x85`: the flag becomes `1` and `V0` becomes `0x0A`. -/
theorem shift_left_spec_witness :
    (_shift_left (with_v0_vf 0x85 0x00) 0x01E 0x0 0x1 0x1E).registers 0x0F = 0x85 / 128
      ∧ (_shift_left (with_v0_vf 0x85 0x00) 0x01E 0x0 0x1 0x1E).registers 0x0
        = (2 * 0x85) % 256 :=
  ⟨(shift_left_spec (with_v0_vf 0x85 0x00) 0x01E 0x0 0x1 0x1E (by decide) (by decide)).1,
   (shift_left_spec (with_v0_vf 0x85 0x00) 0x01E 0x0 0x1 0x1E (by decide) (by decide)).2.1⟩

/-! ### Skip instructions (3xnn, 4xnn, 5xy0, 9xy0) -/

/-- C25: each of the four skip handlers adds 2 to the 16-bit program counter
exactly under its condition (`V[x] = value`, `V[x] ≠ value`, `V[x] = V[y]`,
`V[x] ≠ V[y]`) and otherwise leaves it; none of them changes a register; so of
each equal / not-equal pair exactly one skips. -/
theorem skip_handlers (s : Chip8 D) (address register_x register_y value : Nat) :
    (_skip_equal_register_value s address register_x register_y value).program_counter
        = (if s.registers register_x = value then (s.program_counter + 2) % 65536
           else s.program_counter)
      ∧ (_skip_not_equal_register_value s address register_x register_y value).program_counter
        = (if s.registers register_x ≠ value then (s.program_counter + 2) % 65536
           else s.program_counter)
      ∧ (_skip_equal_register_register s address register_x register_y value).program_counter
        = (if s.registers register_x = s.registers register_y
           then (s.program_counter + 2) % 65536 else s.program_counter)
      ∧ (_skip_not_equal_register_register s address register_x register_y value).program_counter
        = (if s.registers register_x ≠ s.registers register_y
           then (s.program_counter + 2) % 65536 else s.program_counter)
      ∧ (_skip_equal_register_value s address register_x register_y value).registers
        = s.registers
      ∧ (_skip_not_equal_register_value s address register_x register_y value).registers
        = s.registers
      ∧ (_skip_equal_register_register s address register_x register_y value).registers
        = s.registers
      ∧ (_skip_not_equal_register_register s address register_x register_y value).registers
        = s.registers
      ∧ (s.program_counter + 2 < 65536 →
          ((_skip_equal_register_value s address register_x register_y value).program_counter
              = s.program_counter + 2 ↔ s.registers register_x = value)
            ∧ ((_skip_not_equal_register_value s address register_x register_y
                  value).program_counter
              = s.program_counter + 2 ↔ s.registers register_x ≠ value)
            ∧ ((_skip_equal_register_register s address register_x register_y
                  value).program_counter
              = s.program_counter + 2 ↔ s.registers register_x = s.registers register_y)
            ∧ ((_skip_not_equal_register_register s address register_x register_y
                  value).program_counter
              = s.program_counter + 2 ↔ s.registers register_x ≠ s.registers register_y)) := by
  refine ⟨?_, ?_, ?_, ?_, ?_, ?_, ?_, ?_, ?_⟩
  · simp only [_skip_equal_register_value]
    split <;> rfl
  · simp only [_skip_not_equal_register_value]
    split <;> rfl
  · simp only [_skip_equal_register_register]
    split <;> rfl
  · simp only [_skip_not_equal_register_register]
    split <;> rfl
  · simp only [_skip_equal_register_value]
    split <;> rfl
  · simp only [_skip_not_equal_register_value]
    split <;> rfl
  · simp only [_skip_equal_register_register]
    split <;> rfl
  · simp only [_skip_not_equal_register_register]
    split <;> rfl
  · intro hfit
    have hmod : (s.program_counter + 2) % 65536 = s.program_counter + 2 :=
      Nat.mod_eq_of_lt hfit
    refine ⟨?_, ?_, ?_, ?_⟩
    · simp only [_skip_equal_register_value, hmod]
      by_cases h : s.registers register_x = value
      · simp only [h, if_true]
      · simp only [h, if_false, iff_false]
        omega
    · simp only [_skip_not_equal_register_value, hmod]
      by_cases h : s.registers register_x = value
      · simp only [h, ne_eq, not_true_eq_false, if_false, iff_false]
        omega
      · simp only [ne_eq, h, not_false_eq_true, if_true]
    · simp only [_skip_equal_register_register, hmod]
      by_cases h : s.registers register_x = s.registers register_y
      · simp only [h, if_true]
      · simp only [h, if_false, iff_false]
        omega
    · simp only [_skip_not_equal_register_register, hmod]
      by_cases h : s.registers register_x = s.registers register_y
      · simp only [h, ne_eq, not_true_eq_false, if_false, iff_false]
        omega
      · simp only [ne_eq, h, not_false_eq_true, if_true]

/-- C25 on `V0 = 0x42`, `VF = 0x42`, program counter `0x200`: the two equality
tests skip to `0x202`, the two inequality tests do not. -/
theorem skip_handlers_witness :
    (_skip_equal_register_value (with_v0_vf 0x42 0x42) 0x042 0x0 0x4 0x42).program_counter
        = 0x202
      ∧ (_skip_not_equal_register_value (with_v0_vf 0x42 0x42) 0x042 0x0 0x4 0x42).program_counter
        = 0x200
      ∧ (_skip_equal_register_register (with_v0_vf 0x42 0x42) 0x0F0 0x0 0xF 0xF0).program_counter
        = 0x202
      ∧ (_skip_not_equal_register_register (with_v0_vf 0x42 0x42) 0x0F0 0x0 0xF
          0xF0).program_counter = 0x200 :=
  ⟨(skip_handlers (with_v0_vf 0x42 0x42) 0x042 0x0 0x4 0x42).1.trans (by decide),
   (skip_handlers (with_v0_vf 0x42 0x42) 0x042 0x0 0x4 0x42).2.1.trans (by decide),
   (skip_handlers (with_v0_vf 0x42 0x42) 0x0F0 0x0 0xF 0xF0).2.2.1.trans (by decide),
   (skip_handlers (with_v0_vf 0x42 0x42) 0x0F0 0x0 0xF 0xF0).2.2.2.1.trans (by decide)⟩

/-! ### Set address register to a glyph (Fx29) -/

/-- The handler passes `V[x]` to the glyph lookup as it is: `_set_address_sprite`
leaves in the address register the lookup of `V[x]` and changes no register;
for `V[x]` in `0..15` this is the lookup of the low nibble of `V[x]`, whatever
the lookup. -/
theorem set_address_sprite_spec (dev : Devices D) (s : Chip8 D)
    (address register_x register_y value : Nat) :
    (_set_address_sprite dev s address register_x register_y value).address_register
        = dev.get_sprite_address (s.registers register_x)
      ∧ (_set_address_sprite dev s address register_x register_y value).registers = s.registers
      ∧ (s.registers register_x < 16 →
          (_set_address_sprite dev s address register_x register_y value).address_register
            = dev.get_sprite_address (s.registers register_x &&& 0x0F)) := by
  refine ⟨rfl, rfl, ?_⟩
  intro h
  have e : s.registers register_x &&& 0x0F = s.registers register_x % 16 :=
    Nat.and_pow_two_sub_one_eq_mod _ 4
  rw [e, Nat.mod_eq_of_lt h]
  rfl

/-- C27: for the output `r` of the random source, after `_random` `V[x]` is
`(r mod 256) AND value`: it has no bit that `value` has not, it is `0` when
`value` is `0`, and no other register changes. -/
theorem random_spec (s : Chip8 D) (address register_x register_y value : Nat) :
    (_random s address register_x register_y value).registers register_x
        = (s.rand_outputs 0 % 256) &&& value
      ∧ (∀ i, value.testBit i = false →
          ((_random s address register_x register_y value).registers register_x).testBit i
            = false)
      ∧ (value = 0 →
          (_random s address register_x register_y value).registers register_x = 0)
      ∧ (∀ r, r ≠ register_x →
          (_random s address register_x register_y value).registers r = s.registers r) := by
  have hlt : (s.rand_outputs 0 % 256) &&& value < 256 :=
    Nat.lt_of_le_of_lt Nat.and_le_left (Nat.mod_lt _ (by decide))
  have hres : (_random s address register_x register_y value).registers register_x
      = (s.rand_outputs 0 % 256) &&& value := by
    simp only [_random, write_at_same]
    exact Nat.mod_eq_of_lt hlt
  refine ⟨hres, ?_, ?_, ?_⟩
  · intro i hi
    rw [hres, Nat.testBit_and, hi, Bool.and_false]
  · intro h0
    rw [hres, h0, Nat.and_zero]
  · intro r hr
    simp only [_random]
    exact write_at_other _ _ _ _ hr

/-- C27 on `random_machine`, whose random source returns `0x1234`: with
`value = 0x0F` register `3` becomes `0x04`, and register `4` is kept. -/
theorem random_spec_witness :
    (_random random_machine 0x30F 0x3 0x0 0x0F).registers 0x3 = 0x04
      ∧ (_random random_machine 0x30F 0x3 0x0 0x0F).registers 0x4
          = random_machine.registers 0x4 :=
  ⟨(random_spec random_machine 0x30F 0x3 0x0 0x0F).1.trans (by decide),
   (random_spec random_machine 0x30F 0x3 0x0 0x0F).2.2.2 0x4 (by decide)⟩

/-! ### The fields of a word -/

/-- Bitwise and, field by field, of two numbers split at bit `k`. -/
theorem land_split (a b c d k : Nat) (hb : b < 2 ^ k) (hd : d < 2 ^ k) :
    (2 ^ k * a + b) &&& (2 ^ k * c + d) = 2 ^ k * (a &&& c) + (b &&& d) := by
  apply Nat.eq_of_testBit_eq
  intro j
  rw [Nat.testBit_and, Nat.testBit_mul_pow_two_add a hb, Nat.testBit_mul_pow_two_add c hd,
    Nat.testBit_mul_pow_two_add (a &&& c) (Nat.and_lt_two_pow b hd)]
  split <;> simp [Nat.testBit_and]

set_option maxRecDepth 100000 in
theorem byte_and_F0 : ∀ h, h < 256 → h &&& 0xF0 = 16 * (h / 16) := by
  decide

set_option maxRecDepth 100000 in
theorem byte_and_0F : ∀ h, h < 256 → h &&& 0x0F = h % 16 := by
  decide

/-- A word masked with a mask given by its two bytes. -/
theorem and_mask_bytes (w mh ml : Nat) (hml : ml < 256) :
    w &&& (256 * mh + ml) = 256 * ((w / 256) &&& mh) + ((w % 256) &&& ml) := by
  have hw : w = 2 ^ 8 * (w / 256) + w % 256 := by
    have := Nat.div_add_mod w 256
    omega
  have hlo : w % 256 < 2 ^ 8 := Nat.mod_lt _ (by decide)
  have := land_split (w / 256) (w % 256) mh ml 8 hlo hml
  rw [← hw] at this
  exact this

theorem and_F000 (w : Nat) (h : w < 65536) : w &&& 0xF000 = 4096 * (w / 4096) := by
  have := and_mask_bytes w 0xF0 0x00 (by decide)
  rw [byte_and_F0 (w / 256) (by omega), Nat.and_zero] at this
  rw [show (0xF000 : Nat) = 256 * 0xF0 + 0x00 from rfl, this]
  omega

theorem and_F0FF (w : Nat) (h : w < 65536) :
    w &&& 0xF0FF = 4096 * (w / 4096) + w % 256 := by
  have := and_mask_bytes w 0xF0 0xFF (by decide)
  rw [byte_and_F0 (w / 256) (by omega), land_255] at this
  rw [show (0xF0FF : Nat) = 256 * 0xF0 + 0xFF from rfl, this]
  omega

theorem and_F00F (w : Nat) (h : w < 65536) :
    w &&& 0xF00F = 4096 * (w / 4096) + (w % 256) % 16 := by
  have := and_mask_bytes w 0xF0 0x0F (by decide)
  rw [byte_and_F0 (w / 256) (by omega), byte_and_0F (w % 256) (by omega)] at this
  rw [show (0xF00F : Nat) = 256 * 0xF0 + 0x0F from rfl, this]
  omega

theorem and_0F00_shift (w : Nat) (h : w < 65536) : (w &&& 0x0F00) >>> 8 = (w / 256) % 16 := by
  have := and_mask_bytes w 0x0F 0x00 (by decide)
  rw [byte_and_0F (w / 256) (by omega), Nat.and_zero] at this
  rw [show (0x0F00 : Nat) = 256 * 0x0F + 0x00 from rfl, this, Nat.shiftRight_eq_div_pow]
  omega

theorem and_00F0_shift (w : Nat) : (w &&& 0x00F0) >>> 4 = (w / 16) % 16 := by
  have := and_mask_bytes w 0x00 0xF0 (by decide)
  rw [byte_and_F0 (w % 256) (by omega), Nat.and_zero] at this
  rw [show (0x00F0 : Nat) = 256 * 0x00 + 0xF0 from rfl, this, Nat.shiftRight_eq_div_pow]
  omega

theorem and_0FFF (w : Nat) : w &&& 0x0FFF = w % 4096 :=
  Nat.and_pow_two_sub_one_eq_mod w 12

/-- The key of a 16-bit word is the key of its top nibble and low byte. -/
theorem decode_opnum_fields (w : Nat) (h : w < 65536) :
    decode_opnum w = decode_fields (w / 4096) (w % 256) := by
  simp only [decode_opnum, decode_fields, and_F000 w h, and_F0FF w h, and_F00F w h, land_255]

/-- The word that `cycle` fetches is `256 * mem[p] + mem[p + 1]`. -/
theorem fetch_opcode_bytes (s : Chip8 D) :
    fetch_opcode s
      = 256 * s.memory.fetch s.program_counter + s.memory.fetch (s.program_counter + 1) := by
  have hhi : s.memory.fetch s.program_counter < 256 := Nat.mod_lt _ (by decide)
  have hlo : s.memory.fetch (s.program_counter + 1) < 2 ^ 8 := Nat.mod_lt _ (by decide)
  have hor := Nat.mul_add_lt_is_or hlo (s.memory.fetch s.program_counter)
  simp only [fetch_opcode, Nat.shiftLeft_eq]
  rw [Nat.mul_comm, ← hor]
  have : 2 ^ 8 * s.memory.fetch s.program_counter + s.memory.fetch (s.program_counter + 1)
      < 65536 := by
    have e : (2 : Nat) ^ 8 = 256 := rfl
    rw [e] at hlo ⊢
    omega
  rw [Nat.mod_eq_of_lt this]
  rfl

theorem fetch_opcode_lt (s : Chip8 D) : fetch_opcode s < 65536 :=
  Nat.mod_lt _ (by decide)

/-! ### The set of recognized words -/

/-- The insertions of `create_operation_map` all take effect: the map is the
list of the entries. -/
theorem create_operation_map_entries : create_operation_map = operation_entries := by
  decide

theorem operation_map_entries (opnum : Nat) :
    operation_map opnum = operation_entries.lookup opnum := by
  unfold operation_map
  rw [create_operation_map_entries]

set_option maxRecDepth 100000 in
set_option maxHeartbeats 4000000 in
theorem recognized_fields_entries :
    ∀ top, top < 16 → ∀ low_byte, low_byte < 256 →
      (operation_entries.lookup (decode_fields top low_byte)).isSome
        = spec_recognized_fields top low_byte := by
  decide

/-- By top nibble and low byte: the key is in the opcode table exactly for the
fields the specification lists. -/
theorem recognized_fields (top : Nat) (htop : top < 16) (low_byte : Nat)
    (hlow : low_byte < 256) :
    (operation_map (decode_fields top low_byte)).isSome
      = spec_recognized_fields top low_byte := by
  rw [operation_map_entries]
  exact recognized_fields_entries top htop low_byte hlow

set_option maxRecDepth 100000 in
theorem zero_family_fields_entries :
    ∀ low_byte, low_byte < 256 →
      operation_entries.lookup (decode_fields 0 low_byte)
        = some (spec_zero_family low_byte) := by
  decide

/-- By low byte: the handler of a word of top nibble `0`. -/
theorem zero_family_fields (low_byte : Nat) (hlow : low_byte < 256) :
    operation_map (decode_fields 0 low_byte) = some (spec_zero_family low_byte) := by
  rw [operation_map_entries]
  exact zero_family_fields_entries low_byte hlow

set_option maxRecDepth 100000 in
set_option maxHeartbeats 4000000 in
theorem set_timer_fields_entries :
    ∀ top, top < 16 → ∀ low_byte, low_byte < 256 →
      (operation_entries.lookup (decode_fields top low_byte) = some Operation._set_delay_timer
          ↔ top = 0xF ∧ low_byte = 0x15)
        ∧ (operation_entries.lookup (decode_fields top low_byte)
              = some Operation._set_sound_timer
          ↔ top = 0xF ∧ low_byte = 0x18) := by
  decide

/-- By top nibble and low byte: the words dispatched to `_set_delay_timer` and
to `_set_sound_timer`. -/
theorem set_timer_fields (top : Nat) (htop : top < 16) (low_byte : Nat)
    (hlow : low_byte < 256) :
    (operation_map (decode_fields top low_byte) = some Operation._set_delay_timer
        ↔ top = 0xF ∧ low_byte = 0x15)
      ∧ (operation_map (decode_fields top low_byte) = some Operation._set_sound_timer
        ↔ top = 0xF ∧ low_byte = 0x18) := by
  rw [operation_map_entries]
  exact set_timer_fields_entries top htop low_byte hlow

/-- C29: a 16-bit word has a handler exactly when the specification lists it;
a word of top nibble `0` goes to `_clear_screen` when its low byte is `E0`, to
`_return` when it is `EE` and to `_system_call` otherwise, whatever its bits
8-11; so `01E0` goes to `_clear_screen`. -/
theorem recognized_words (w : Nat) (h : w < 65536) :
    ((operation_map (decode_opnum w)).isSome = true ↔ spec_recognized w = true)
      ∧ (w / 4096 = 0 →
          operation_map (decode_opnum w) = some (spec_zero_family (w % 256))
            ∧ (operation_map (decode_opnum w) = some Operation._clear_screen
                ↔ w % 256 = 0xE0)
            ∧ (operation_map (decode_opnum w) = some Operation._return
                ↔ w % 256 = 0xEE)
            ∧ (operation_map (decode_opnum w) = some Operation._system_call
                ↔ (w % 256 ≠ 0xE0 ∧ w % 256 ≠ 0xEE)))
      ∧ operation_map (decode_opnum 0x01E0) = some Operation._clear_screen := by
  have htop : w / 4096 < 16 := by omega
  have hlow : w % 256 < 256 := Nat.mod_lt _ (by decide)
  refine ⟨?_, ?_, by decide⟩
  · rw [decode_opnum_fields w h, recognized_fields _ htop _ hlow]
    rfl
  · intro h0
    have hz : operation_map (decode_opnum w) = some (spec_zero_family (w % 256)) := by
      rw [decode_opnum_fields w h, h0]
      exact zero_family_fields _ hlow
    refine ⟨hz, ?_, ?_, ?_⟩
    · rw [hz]
      unfold spec_zero_family
      constructor
      · intro he
        by_contra hne
        rw [if_neg hne] at he
        split at he <;> simp at he
      · intro he
        rw [if_pos he]
    · rw [hz]
      unfold spec_zero_family
      constructor
      · intro he
        by_contra hne
        split at he <;> simp at he
      · intro he
        have hne : w % 256 ≠ 0xE0 := by omega
        rw [if_neg hne, if_pos he]
    · rw [hz]
      unfold spec_zero_family
      constructor
      · intro he
        constructor
        · intro h1
          rw [if_pos h1] at he
          simp at he
        · intro h2
          have hne : w % 256 ≠ 0xE0 := by omega
          rw [if_neg hne, if_pos h2] at he
          simp at he
      · rintro ⟨h1, h2⟩
        rw [if_neg h1, if_neg h2]

/-- C29 on the words `01E0`, `5001` and `F065`. -/
theorem recognized_words_witness :
    ((operation_map (decode_opnum 0x01E0)).isSome = true ↔ spec_recognized 0x01E0 = true)
      ∧ ((operation_map (decode_opnum 0x5001)).isSome = true ↔ spec_recognized 0x5001 = true)
      ∧ ((operation_map (decode_opnum 0xF065)).isSome = true ↔ spec_recognized 0xF065 = true)
      ∧ operation_map (decode_opnum 0x01E0) = some (spec_zero_family (0x01E0 % 256)) :=
  ⟨(recognized_words 0x01E0 (by decide)).1,
   (recognized_words 0x5001 (by decide)).1,
   (recognized_words 0xF065 (by decide)).1,
   ((recognized_words 0x01E0 (by decide)).2.1 (by decide)).1⟩

/-! ### Timers and instruction execution -/

/-- A handler leaves the delay timer unless it is `_set_delay_timer`, and the
sound timer unless it is `_set_sound_timer`; these two store `V[x]`. -/
theorem run_operation_timers (dev : Devices D) (operation : Operation) (s : Chip8 D)
    (address register_x register_y value : Nat) :
    (run_operation dev operation s address register_x register_y value).delay_timer
        = (if operation = Operation._set_delay_timer then s.registers register_x
           else s.delay_timer)
      ∧ (run_operation dev operation s address register_x register_y value).sound_timer
        = (if operation = Operation._set_sound_timer then s.registers register_x
           else s.sound_timer) := by
  cases operation <;> simp [run_operation, _clear_screen, _return, _system_call, _jump, _call,
    _skip_equal_register_value, _skip_not_equal_register_value, _skip_equal_register_register,
    _assign_register_value, _add_register_value, _assign_register_register, _or, _and, _xor,
    _add_register_register, _subtract_register_register, _shift_right,
    _subtract_negative_register_register, _shift_left, _skip_not_equal_register_register,
    _set_address_register, _jump_offset, _random, _draw, _skip_key_pressed,
    _skip_key_not_pressed, _get_delay_timer, _get_key, _set_delay_timer, _set_sound_timer,
    _add_address_register, _set_address_sprite, _store_bcd, _dump_register, _load_register]
    <;> (try split) <;> simp

/-- C28: after one cycle the delay timer is `V[x]` when the fetched word is
`Fx15` and its previous value otherwise, and the sound timer is `V[x]` when the
fetched word is `Fx18` and its previous value otherwise: a cycle never
decrements a timer. -/
theorem cycle_timers (dev : Devices D) (s : Chip8 D) :
    (cycle dev s).delay_timer
        = (if fetch_opcode s / 4096 = 0xF ∧ fetch_opcode s % 256 = 0x15
           then s.registers ((fetch_opcode s / 256) % 16) else s.delay_timer)
      ∧ (cycle dev s).sound_timer
        = (if fetch_opcode s / 4096 = 0xF ∧ fetch_opcode s % 256 = 0x18
           then s.registers ((fetch_opcode s / 256) % 16) else s.sound_timer) := by
  have hw := fetch_opcode_lt s
  have htop : fetch_opcode s / 4096 < 16 := by omega
  have hlow : fetch_opcode s % 256 < 256 := Nat.mod_lt _ (by decide)
  obtain ⟨hd, hs⟩ := set_timer_fields _ htop _ hlow
  rw [← decode_opnum_fields _ hw] at hd hs
  have hx : ((fetch_opcode s &&& 0x0F00) >>> 8) % 256 = (fetch_opcode s / 256) % 16 := by
    rw [and_0F00_shift _ hw]
    omega
  cases hop : operation_map (decode_opnum (fetch_opcode s)) with
  | none =>
    have nd : ¬ (fetch_opcode s / 4096 = 0xF ∧ fetch_opcode s % 256 = 0x15) := by
      intro h
      have := hd.mpr h
      rw [hop] at this
      exact absurd this (by simp)
    have ns : ¬ (fetch_opcode s / 4096 = 0xF ∧ fetch_opcode s % 256 = 0x18) := by
      intro h
      have := hs.mpr h
      rw [hop] at this
      exact absurd this (by simp)
    simp only [cycle, hop, _invalid_opcode, if_neg nd, if_neg ns, and_self]
  | some operation =>
    rw [hop] at hd hs
    have hd' : operation = Operation._set_delay_timer
        ↔ fetch_opcode s / 4096 = 0xF ∧ fetch_opcode s % 256 = 0x15 := by
      rw [← hd]
      simp
    have hs' : operation = Operation._set_sound_timer
        ↔ fetch_opcode s / 4096 = 0xF ∧ fetch_opcode s % 256 = 0x18 := by
      rw [← hs]
      simp
    simp only [cycle, hop]
    obtain ⟨t1, t2⟩ := run_operation_timers dev operation
      { s with program_counter := (s.program_counter + 2) % 65536 }
      (fetch_opcode s &&& 0x0FFF) (((fetch_opcode s &&& 0x0F00) >>> 8) % 256)
      (((fetch_opcode s &&& 0x00F0) >>> 4) % 256) ((fetch_opcode s &&& 0x00FF) % 256)
    rw [t1, t2, hx]
    constructor
    · by_cases h : operation = Operation._set_delay_timer
      · rw [if_pos h, if_pos (hd'.mp h)]
      · rw [if_neg h, if_neg (fun c => h (hd'.mpr c))]
    · by_cases h : operation = Operation._set_sound_timer
      · rw [if_pos h, if_pos (hs'.mp h)]
      · rw [if_neg h, if_neg (fun c => h (hs'.mpr c))]

/-- C28 on `set_timer_machine`, stopped on `F315` with `V3 = 0x2C` and both
timers at `9`: the delay timer becomes `0x2C`, the sound timer stays at `9`. -/
theorem cycle_timers_witness :
    (cycle no_devices set_timer_machine).delay_timer = 0x2C
      ∧ (cycle no_devices set_timer_machine).sound_timer = 9 :=
  ⟨(cycle_timers no_devices set_timer_machine).1.trans (by decide),
   (cycle_timers no_devices set_timer_machine).2.trans (by decide)⟩

/-! ### Fetch and decode -/

/-- C24, as the claim states it, fails at the top of the 16-bit program
counter: from `p = 0xFFFE`, with the bytes `6A 42` there, the cycle sets `VA`
to `0x42` and leaves the program counter at `0`, not at `p + 2 = 0x10000`. -/
theorem fetch_program_counter_wraps :
    top_machine.program_counter = 0xFFFE
      ∧ (cycle no_devices top_machine).registers 0xA = 0x42
      ∧ (cycle no_devices top_machine).program_counter = 0
      ∧ (cycle no_devices top_machine).program_counter ≠ top_machine.program_counter + 2 := by
  decide

/-- C24, amended: one cycle decodes the word `w = 256 * mem[p] + mem[p + 1]`,
sets the program counter to `(p + 2) mod 65536`, which is `p + 2` when that
fits 16 bits, before the handler runs, and passes the handler
`addr = w mod 4096`, `x = (w div 256) mod 16`, `y = (w div 16) mod 16` and
`value = w mod 256`; `x` and `y` are in `0..15`. -/
theorem fetch_decode (dev : Devices D) (s : Chip8 D) :
    fetch_opcode s
        = 256 * s.memory.fetch s.program_counter + s.memory.fetch (s.program_counter + 1)
      ∧ cycle dev s
        = (match operation_map (decode_opnum (fetch_opcode s)) with
           | some operation =>
             run_operation dev operation
               { s with program_counter := (s.program_counter + 2) % 65536 }
               (fetch_opcode s % 4096) ((fetch_opcode s / 256) % 16)
               ((fetch_opcode s / 16) % 16) (fetch_opcode s % 256)
           | none => { s with program_counter := (s.program_counter + 2) % 65536 })
      ∧ (s.program_counter + 2 < 65536 →
          cycle dev s
            = (match operation_map (decode_opnum (fetch_opcode s)) with
               | some operation =>
                 run_operation dev operation
                   { s with program_counter := s.program_counter + 2 }
                   (fetch_opcode s % 4096) ((fetch_opcode s / 256) % 16)
                   ((fetch_opcode s / 16) % 16) (fetch_opcode s % 256)
               | none => { s with program_counter := s.program_counter + 2 }))
      ∧ (fetch_opcode s / 256) % 16 < 16
      ∧ (fetch_opcode s / 16) % 16 < 16 := by
  have hw := fetch_opcode_lt s
  have hx : ((fetch_opcode s &&& 0x0F00) >>> 8) % 256 = (fetch_opcode s / 256) % 16 := by
    rw [and_0F00_shift _ hw]
    omega
  have hy : ((fetch_opcode s &&& 0x00F0) >>> 4) % 256 = (fetch_opcode s / 16) % 16 := by
    rw [and_00F0_shift]
    omega
  have hv : (fetch_opcode s &&& 0x00FF) % 256 = fetch_opcode s % 256 := by
    rw [land_255]
    omega
  have hc : cycle dev s
      = (match operation_map (decode_opnum (fetch_opcode s)) with
         | some operation =>
           run_operation dev operation
             { s with program_counter := (s.program_counter + 2) % 65536 }
             (fetch_opcode s % 4096) ((fetch_opcode s / 256) % 16)
             ((fetch_opcode s / 16) % 16) (fetch_opcode s % 256)
         | none => { s with program_counter := (s.program_counter + 2) % 65536 }) := by
    simp only [cycle, and_0FFF, hx, hy, hv, _invalid_opcode]
  refine ⟨fetch_opcode_bytes s, hc, ?_, by omega, by omega⟩
  intro hfit
  rw [hc, Nat.mod_eq_of_lt hfit]

/-- C24, amended, on `assign_machine`: the bytes `6A 42` at `0x200` are the
word `0x6A42`; the cycle sets `VA` to `0x42` and leaves the program counter at
`0x202`. -/
theorem fetch_decode_witness :
    fetch_opcode assign_machine = 0x6A42
      ∧ (cycle no_devices assign_machine).registers 0xA = 0x42
      ∧ (cycle no_devices assign_machine).program_counter = 0x202 :=
  ⟨(fetch_decode no_devices assign_machine).1.trans (by decide),
   (congrArg (fun t => t.registers 0xA)
      ((fetch_decode no_devices assign_machine).2.2.1 (by decide))).trans (by decide),
   (congrArg (fun t => t.program_counter)
      ((fetch_decode no_devices assign_machine).2.2.1 (by decide))).trans (by decide)⟩

/-! ### The text helpers of the view -/

/-- C30: `byte_to_string` pads below `0x0F` and `short_to_string` below
`0x0FFF`, `0x00FF` and `0x000F`, so the values `0x0F`, `0x0FFF`, `0x00FF` and
`0x000F` themselves come out one digit short: `f` for the byte `0x0F`, and
`fff`, `0ff`, `00f` for the 16-bit values. -/
theorem hex_text_one_digit_short :
    byte_to_string 0x0F false = "f"
      ∧ (byte_to_string 0x0F false).length = 1
      ∧ byte_to_string 0x0F true = "0xf"
      ∧ short_to_string 0x0FFF false = "fff"
      ∧ short_to_string 0x00FF false = "0ff"
      ∧ short_to_string 0x000F false = "00f"
      ∧ (short_to_string 0x0FFF false).length = 3
      ∧ byte_to_string 0x0E false = "0e"
      ∧ byte_to_string 0x10 false = "10"
      ∧ short_to_string 0x0FFE false = "0ffe"
      ∧ short_to_string 0x1000 false = "1000" := by
  decide

set_option maxRecDepth 100000 in
/-- Every byte other than `0x0F` is rendered by `byte_to_string` as two
characters, after the prefix `0x` when it is asked for. -/
theorem byte_to_string_length :
    ∀ value, value < 256 → value ≠ 0x0F →
      (byte_to_string value false).length = 2
        ∧ byte_to_string value true = "0x" ++ byte_to_string value false := by
  decide

end Tidwell8
